import Mathlib

/-!
# Verification of `raytracer.js`

A shallow embedding of the ray caster in `src/raytracer.js`: the `Vec3`, `Ray`
and `Sphere` classes, the shader `color`, and the render loop of
`window.onload`.

The functions of the program are written once, over an arbitrary number type
`F` that has the operations the source uses (`+`, `-`, `*`, `/`, unary minus,
`<`, numeric literals), with `Math.sqrt` as a parameter `sqrt : F → F`.  They are
read in two number systems:

* `F := Double`, a model of IEEE 754 binary64 (the numbers of JavaScript) with
  rounding to nearest, ties to even, overflow to the infinities, gradual
  underflow, signed zeros and NaN.  This is the program as it runs.
* `F := ℝ` with `sqrt := Real.sqrt`.  This is the program in exact real
  arithmetic, i.e. with every rounding, overflow and underflow left out.
-/

set_option autoImplicit false

namespace Raytracer

/-! ## JavaScript numbers -/

/-- An IEEE 754 binary64 value (a JavaScript number): NaN, an infinity, or the
finite value `(-1)^neg * m * 2^e`.  Every operation below returns finite values
in the one form binary64 has for them: `m < 2^53` and `e ≥ -1074`, with
`2^52 ≤ m` unless `e = -1074` (subnormal), and `m = 0`, `e = 0` for the two
zeros.  So equal values with equal sign are equal terms. -/
inductive Double where
  | nan : Double
  | inf (neg : Bool) : Double
  | fin (neg : Bool) (m : Nat) (e : Int) : Double
  deriving DecidableEq

namespace Double

/-- The number of binary digits of `n`, by structural recursion on `fuel ≥ n`. -/
def bitLengthAux : Nat → Nat → Nat
  | 0, _ => 0
  | fuel + 1, n => if n = 0 then 0 else bitLengthAux fuel (n / 2) + 1

/-- The number of binary digits of `n` (`0` for `n = 0`). -/
def bitLength (n : Nat) : Nat := bitLengthAux n n

/-- Packs a significand `m ≤ 2^53` with exponent `e ≥ -1074` into a value. -/
def pack (neg : Bool) (m : Nat) (e : Int) : Double :=
  if m = 2 ^ 53 then
    if e + 1 > 971 then inf neg else fin neg (2 ^ 52) (e + 1)
  else if m = 0 then fin neg 0 0
  else if e > 971 then inf neg
  else fin neg m e

/-- Rounds `(-1)^neg * (n + s) * 2^e` to the nearest binary64 value, ties to
even, where `s = 0` when `sticky` is false and `0 < s < 1` otherwise. -/
def round (neg : Bool) (n : Nat) (e : Int) (sticky : Bool) : Double :=
  if n = 0 then fin neg 0 0
  else
    let bits : Int := (bitLength n : Int)
    let e' : Int := max (e + bits - 53) (-1074)
    if e' ≤ e then
      pack neg (n * 2 ^ (e - e').toNat) e'
    else
      let shift := (e' - e).toNat
      let q := n / 2 ^ shift
      let rem := n % 2 ^ shift
      let half := 2 ^ (shift - 1)
      let up : Bool := decide (half < rem) || (decide (rem = half) && (sticky || q % 2 == 1))
      pack neg (if up then q + 1 else q) e'

/-- The number nearest to the natural number `n`. -/
def ofNat (n : Nat) : Double := round false n 0 false

/-- Unary minus. -/
def neg : Double → Double
  | nan => nan
  | inf s => inf (!s)
  | fin s m e => fin (!s) m e

/-- Addition: the exact sum, rounded. -/
def add : Double → Double → Double
  | nan, _ => nan
  | _, nan => nan
  | inf s, inf t => if s = t then inf s else nan
  | inf s, fin _ _ _ => inf s
  | fin _ _ _, inf t => inf t
  | fin s m e, fin t n f =>
    let g := min e f
    let a := m * 2 ^ (e - g).toNat
    let b := n * 2 ^ (f - g).toNat
    if s = t then round s (a + b) g false
    else if a = b then fin false 0 0
    else if b < a then round s (a - b) g false
    else round t (b - a) g false

/-- Subtraction. -/
def sub (x y : Double) : Double := add x (neg y)

/-- Multiplication: the exact product, rounded. -/
def mul : Double → Double → Double
  | nan, _ => nan
  | _, nan => nan
  | inf s, inf t => inf (xor s t)
  | inf s, fin t n _ => if n = 0 then nan else inf (xor s t)
  | fin s m _, inf t => if m = 0 then nan else inf (xor s t)
  | fin s m e, fin t n f => round (xor s t) (m * n) (e + f) false

/-- Division: the exact quotient, rounded; the quotient is computed to at least
`64` binary digits and the remainder kept as the sticky bit. -/
def div : Double → Double → Double
  | nan, _ => nan
  | _, nan => nan
  | inf _, inf _ => nan
  | inf s, fin t _ _ => inf (xor s t)
  | fin s _ _, inf t => fin (xor s t) 0 0
  | fin s m e, fin t n f =>
    if n = 0 then (if m = 0 then nan else inf (xor s t))
    else if m = 0 then fin (xor s t) 0 0
    else
      let k := 64 + bitLength n
      round (xor s t) (m * 2 ^ k / n) (e - f - (k : Int)) (m * 2 ^ k % n != 0)

/-- Integer square root by bits: the largest `r` below `2^i` above the bits
already fixed with `r * r ≤ n`. -/
def isqrtAux : Nat → Nat → Nat → Nat
  | 0, _, r => r
  | i + 1, n, r => isqrtAux i n (if (r + 2 ^ i) * (r + 2 ^ i) ≤ n then r + 2 ^ i else r)

/-- The integer square root `⌊√n⌋`. -/
def isqrt (n : Nat) : Nat := isqrtAux (bitLength n / 2 + 1) n 0

/-- `Math.sqrt`: the exact square root, rounded; the root is computed to at
least `64` binary digits, with the sticky bit set when it is inexact. -/
def sqrt : Double → Double
  | nan => nan
  | inf s => if s then nan else inf false
  | fin s m e =>
    if m = 0 then fin s 0 0
    else if s then nan
    else
      let k : Nat := if (e - 128) % 2 = 0 then 128 else 129
      let n := m * 2 ^ k
      let r := isqrt n
      round false r ((e - (k : Int)) / 2) (r * r != n)

/-- The comparison `x < y` of two numbers; false when one of them is NaN. -/
def lt : Double → Double → Bool
  | nan, _ => false
  | _, nan => false
  | inf s, inf t => s && !t
  | inf s, fin _ _ _ => s
  | fin _ _ _, inf t => !t
  | fin s m e, fin t n f =>
    let g := min e f
    let a := m * 2 ^ (e - g).toNat
    let b := n * 2 ^ (f - g).toNat
    match s, t with
    | false, false => decide (a < b)
    | true, true => decide (b < a)
    | true, false => !(a == 0 && b == 0)
    | false, true => false

/-- The number denoted by the decimal literal `mantissa * 10^(±decimalExponent)`:
the number nearest to its exact value. -/
def ofScientific (mantissa : Nat) (exponentSign : Bool) (decimalExponent : Nat) : Double :=
  if exponentSign then
    if mantissa = 0 then fin false 0 0
    else
      let d := 10 ^ decimalExponent
      let k := 64 + bitLength d
      round false (mantissa * 2 ^ k / d) (-(k : Int)) (mantissa * 2 ^ k % d != 0)
  else ofNat (mantissa * 10 ^ decimalExponent)

/-- The comparison `x <= y` of two numbers. -/
def le (x y : Double) : Bool :=
  lt x y || (decide (x ≠ nan) && decide (y ≠ nan) && !lt y x)

/-- `Math.floor`. -/
def floor : Double → Double
  | nan => nan
  | inf s => inf s
  | fin s m e =>
    if 0 ≤ e then fin s m e
    else
      let d := 2 ^ (-e).toNat
      let q := m / d
      if s then (if m % d = 0 then round true q 0 false else round true (q + 1) 0 false)
      else round false q 0 false

/-- The conversion `ToUint8Clamp` applied on a store into a `Uint8ClampedArray`:
NaN becomes `0`, other values are clamped to `[0, 255]` and rounded to the
nearest integer, ties to even. -/
def toUint8Clamp : Double → Nat
  | nan => 0
  | inf s => if s then 0 else 255
  | fin s m e =>
    if s then 0
    else if 0 ≤ e then min 255 (m * 2 ^ e.toNat)
    else
      let d := 2 ^ (-e).toNat
      let q := m / d
      let r := m % d
      let up : Bool := decide (d < 2 * r) || (decide (2 * r = d) && q % 2 == 1)
      min 255 (if up then q + 1 else q)

end Double

instance : Add Double := ⟨Double.add⟩

instance : Sub Double := ⟨Double.sub⟩

instance : Mul Double := ⟨Double.mul⟩

instance : Div Double := ⟨Double.div⟩

instance : Neg Double := ⟨Double.neg⟩

instance : LT Double := ⟨fun x y => Double.lt x y = true⟩

instance : LE Double := ⟨fun x y => Double.le x y = true⟩

instance (x y : Double) : Decidable (x < y) :=
  inferInstanceAs (Decidable (Double.lt x y = true))

instance (x y : Double) : Decidable (x ≤ y) :=
  inferInstanceAs (Decidable (Double.le x y = true))

instance (n : Nat) : OfNat Double n := ⟨Double.ofNat n⟩

instance : NatCast Double := ⟨Double.ofNat⟩

instance : OfScientific Double := ⟨Double.ofScientific⟩

/-! ## Utility vector class -/

/-- The class `Vec3`: three numeric components. -/
@[ext]
structure Vec3 (F : Type) where
  x : F
  y : F
  z : F

instance {F : Type} [DecidableEq F] : DecidableEq (Vec3 F) := fun a b =>
  decidable_of_iff (a.x = b.x ∧ a.y = b.y ∧ a.z = b.z) (Vec3.ext_iff (x := a) (y := b)).symm

namespace Vec3

variable {F : Type}

/-- `Vec3.add` (source lines 11-13). -/
def add [Add F] (a v : Vec3 F) : Vec3 F :=
  ⟨a.x + v.x, a.y + v.y, a.z + v.z⟩

/-- `Vec3.sub` (source lines 15-17). -/
def sub [Sub F] (a v : Vec3 F) : Vec3 F :=
  ⟨a.x - v.x, a.y - v.y, a.z - v.z⟩

/-- `Vec3.mul` (source lines 19-21), multiplication by a scalar. -/
def mul [Mul F] (a : Vec3 F) (t : F) : Vec3 F :=
  ⟨a.x * t, a.y * t, a.z * t⟩

/-- `Vec3.div` (source lines 23-25), division by a scalar. -/
def div [Div F] (a : Vec3 F) (t : F) : Vec3 F :=
  ⟨a.x / t, a.y / t, a.z / t⟩

/-- `Vec3.dot` (source lines 27-29). -/
def dot [Add F] [Mul F] (a v : Vec3 F) : F :=
  a.x * v.x + a.y * v.y + a.z * v.z

/-- `Vec3.length` (source lines 31-33): `Math.sqrt(this.dot(this))`. -/
def length [Add F] [Mul F] (sqrt : F → F) (a : Vec3 F) : F :=
  sqrt (a.dot a)

/-- `Vec3.normalize` (source lines 35-38). -/
def normalize [Add F] [Mul F] [Div F] (sqrt : F → F) (a : Vec3 F) : Vec3 F :=
  let len := a.length sqrt
  a.div len

end Vec3

/-! ## Ray class -/

/-- The class `Ray`: an origin and a direction. -/
structure Ray (F : Type) where
  origin : Vec3 F
  direction : Vec3 F

/-- `Ray.pointAtParameter` (source lines 50-52). -/
def Ray.pointAtParameter {F : Type} [Add F] [Mul F] (r : Ray F) (t : F) : Vec3 F :=
  r.origin.add (r.direction.mul t)

/-! ## Sphere class -/

/-- The class `Sphere`: a center and a radius. -/
structure Sphere (F : Type) where
  center : Vec3 F
  radius : F

/-- `Sphere.hit` (source lines 65-76): the smaller root of the quadratic, or
`-1` when the discriminant is negative. -/
def Sphere.hit {F : Type} [Add F] [Sub F] [Mul F] [Div F] [Neg F] [LT F]
    [∀ a b : F, Decidable (a < b)] [OfScientific F] [OfNat F 0] [OfNat F 4]
    (sqrt : F → F) (s : Sphere F) (ray : Ray F) : F :=
  let oc := ray.origin.sub s.center
  let a := ray.direction.dot ray.direction
  let b := 2.0 * oc.dot ray.direction
  let c := oc.dot oc - s.radius * s.radius
  let discriminant := b * b - 4 * a * c
  if discriminant < 0 then
    -1.0
  else
    (-b - sqrt discriminant) / (2.0 * a)

/-! ## Helper functions -/

/-- The shader `color` (source lines 82-106). -/
def color {F : Type} [Add F] [Sub F] [Mul F] [Div F] [Neg F] [LT F]
    [∀ a b : F, Decidable (a < b)] [OfScientific F] [OfNat F 0] [OfNat F 4]
    (sqrt : F → F) (ray : Ray F) (sphere : Sphere F) : Vec3 F :=
  let t := sphere.hit sqrt ray
  if t > 0.0 then
    let hitPoint := ray.pointAtParameter t
    let normal := (hitPoint.sub sphere.center).normalize sqrt
    let r := 0.5 * (normal.x + 1.0)
    let g := 0.5 * (normal.y + 1.0)
    let b := 0.5 * (normal.z + 1.0)
    ⟨r, g, b⟩
  else
    let unitDirection := ray.direction.normalize sqrt
    let t := 0.5 * (unitDirection.y + 1.0)
    let white : Vec3 F := ⟨1.0, 1.0, 1.0⟩
    let sky : Vec3 F := ⟨0.5, 0.7, 1.0⟩
    (white.mul (1.0 - t)).add (sky.mul t)

/-! ## Main rendering -/

/-- Conversion of an integer on a store into the pixel buffer
(`imageData.data`, a `Uint8ClampedArray`): the value is clamped to `[0, 255]`. -/
def toUint8Clamped (n : Int) : Nat :=
  (max 0 (min 255 n)).toNat

/-- The assignment `pixels[idx] = value`; a store outside the buffer has no
effect. -/
def store (pixels : Array Nat) (idx : Nat) (value : Int) : Array Nat :=
  pixels.setD idx (toUint8Clamped value)

/-- A buffer of `n` zero bytes: the data of a blank (transparent black) canvas. -/
def blankBuffer (n : Nat) : Array Nat :=
  Array.mkArray n 0

/-- A sequence of assignments `pixels[idx] = value`, made in order. -/
def storeAll (pixels : Array Nat) (stores : List (Nat × Int)) : Array Nat :=
  stores.foldl (fun px w => store px w.1 w.2) pixels

/-- The assignment `pixels[idx] = value` of a double to the `Uint8ClampedArray`;
a store outside the buffer has no effect. -/
def storeDouble (pixels : Array Nat) (idx : Nat) (value : Double) : Array Nat :=
  pixels.setD idx (Double.toUint8Clamp value)

namespace onload

/-- The expression `((height - 1 - j) * width + i) * 4` of source line 146.  The
loop only evaluates it for `0 ≤ j ≤ height - 1`, where the subtraction of
natural numbers is exact. -/
def pixelIndex (width height j i : Nat) : Nat :=
  ((height - 1 - j) * width + i) * 4

section Scene

variable {F : Type}

/-- Source line 122. -/
def lowerLeftCorner [Neg F] [OfScientific F] : Vec3 F := ⟨-2.0, -1.0, -1.0⟩

/-- Source line 123. -/
def horizontal [OfScientific F] : Vec3 F := ⟨4.0, 0.0, 0.0⟩

/-- Source line 124. -/
def vertical [OfScientific F] : Vec3 F := ⟨0.0, 2.0, 0.0⟩

/-- Source line 125. -/
def origin [OfScientific F] : Vec3 F := ⟨0.0, 0.0, 0.0⟩

/-- Source line 128: the single sphere of the scene. -/
def sphere [Neg F] [OfScientific F] [OfNat F 0] [OfNat F 1] : Sphere F :=
  ⟨⟨0, 0, -1⟩, 0.5⟩

/-- Source lines 136-141: the ray constructed for pixel `(i, j)`. -/
def ray [Add F] [Sub F] [Mul F] [Div F] [Neg F] [OfScientific F] [OfNat F 1] [NatCast F]
    (width height j i : Nat) : Ray F :=
  let u := (i : F) / ((width : F) - 1)
  let v := (j : F) / ((height : F) - 1)
  let dir := (((lowerLeftCorner.add (horizontal.mul u)).add (vertical.mul v)).sub origin)
  ⟨origin, dir⟩

variable [LinearOrderedField F] [FloorRing F]

/-- Source lines 143-150 in exact arithmetic: the four stores made for pixel
`(i, j)`, in order, as pairs of a buffer index and the value assigned, with `⌊·⌋`
for `Math.floor`. -/
def pixelStores (sqrt : F → F) (width height j i : Nat) : List (Nat × Int) :=
  let r : Ray F := ray width height j i
  let col := color sqrt r sphere
  let pixelIndex := pixelIndex width height j i
  [(pixelIndex + 0, ⌊255.99 * col.x⌋),
   (pixelIndex + 1, ⌊255.99 * col.y⌋),
   (pixelIndex + 2, ⌊255.99 * col.z⌋),
   (pixelIndex + 3, 255)]

/-- The body of the inner loop (source lines 136-150) as a buffer update. -/
def renderPixel (sqrt : F → F) (width height : Nat) (pixels : Array Nat) (j i : Nat) :
    Array Nat :=
  storeAll pixels (pixelStores sqrt width height j i)

/-- The inner loop `for (let i = 0; i < width; i++)` (source line 135). -/
def renderRow (sqrt : F → F) (width height : Nat) (pixels : Array Nat) (j : Nat) :
    Array Nat :=
  (List.range width).foldl (fun px i => renderPixel sqrt width height px j i) pixels

/-- The render loop `for (let j = height - 1; j >= 0; j--)` (source lines
134-152) in exact arithmetic, on the pixel buffer `imageData.data` that line 131
hands to it.  It is the program without rounding, and is used for frames with
`width ≥ 2` and `height ≥ 2`, where no division by zero occurs; `renderDouble`
below is the same loop on doubles. -/
def render (sqrt : F → F) (width height : Nat) (pixels : Array Nat) : Array Nat :=
  (List.range height).reverse.foldl (fun px j => renderRow sqrt width height px j) pixels

/-- All stores of the render loop, in the order in which the loop makes them:
rows `j = height - 1, ..., 0`, and columns `i = 0, ..., width - 1` in each. -/
def allStores (sqrt : F → F) (width height : Nat) : List (Nat × Int) :=
  (List.range height).reverse.flatMap fun j =>
    (List.range width).flatMap fun i => pixelStores sqrt width height j i

/-- The buffer indices stored to by the render loop, in the order of the
stores. -/
def writtenIndices (sqrt : F → F) (width height : Nat) : List Nat :=
  (allStores sqrt width height).map Prod.fst

end Scene

/-! ### The render loop on doubles -/

/-- Source lines 143-150 on doubles: the four stores made for pixel `(i, j)`, in
order, as pairs of a buffer index and the number assigned. -/
def pixelStoresDouble (width height j i : Nat) : List (Nat × Double) :=
  let r : Ray Double := ray width height j i
  let col := color Double.sqrt r sphere
  let pixelIndex := pixelIndex width height j i
  [(pixelIndex + 0, Double.floor (255.99 * col.x)),
   (pixelIndex + 1, Double.floor (255.99 * col.y)),
   (pixelIndex + 2, Double.floor (255.99 * col.z)),
   (pixelIndex + 3, 255)]

/-- The body of the inner loop (source lines 136-150) on doubles. -/
def renderPixelDouble (width height : Nat) (pixels : Array Nat) (j i : Nat) : Array Nat :=
  (pixelStoresDouble width height j i).foldl (fun px w => storeDouble px w.1 w.2) pixels

/-- The inner loop `for (let i = 0; i < width; i++)` (source line 135) on
doubles. -/
def renderRowDouble (width height : Nat) (pixels : Array Nat) (j : Nat) : Array Nat :=
  (List.range width).foldl (fun px i => renderPixelDouble width height px j i) pixels

/-- The render loop `for (let j = height - 1; j >= 0; j--)` (source lines
134-152) on doubles, on the pixel buffer `imageData.data` that line 131 hands to
it.  Lines 112-131, which obtain the canvas and its buffer from the browser, are
outside the embedding. -/
def renderDouble (width height : Nat) (pixels : Array Nat) : Array Nat :=
  (List.range height).reverse.foldl (fun px j => renderRowDouble width height px j) pixels

/-- All stores of the render loop on doubles, in order, each with the byte that
the buffer keeps of the number assigned. -/
def allStoresDouble (width height : Nat) : List (Nat × Int) :=
  (List.range height).reverse.flatMap fun j =>
    (List.range width).flatMap fun i =>
      (pixelStoresDouble width height j i).map
        fun w => (w.1, ((Double.toUint8Clamp w.2 : Nat) : Int))

end onload

/-! ## Quadratic coefficients of the intersection test (proof vocabulary) -/

section Vocabulary

variable {F : Type} [LinearOrderedField F]

/-- The zero vector. -/
def Vec3.zero : Vec3 F := ⟨0, 0, 0⟩

/-- Coefficient `a` computed by `Sphere.hit`. -/
def hitA (ray : Ray F) : F := ray.direction.dot ray.direction

/-- Coefficient `b` computed by `Sphere.hit`. -/
def hitB (s : Sphere F) (ray : Ray F) : F := 2 * (ray.origin.sub s.center).dot ray.direction

/-- Coefficient `c` computed by `Sphere.hit`. -/
def hitC (s : Sphere F) (ray : Ray F) : F :=
  (ray.origin.sub s.center).dot (ray.origin.sub s.center) - s.radius * s.radius

/-- The discriminant computed by `Sphere.hit`. -/
def hitDisc (s : Sphere F) (ray : Ray F) : F :=
  hitB s ray * hitB s ray - 4 * hitA ray * hitC s ray

/-- The value `Sphere.hit` returns when the discriminant is not negative. -/
def nearRoot (sqrt : F → F) (s : Sphere F) (ray : Ray F) : F :=
  (-hitB s ray - sqrt (hitDisc s ray)) / (2 * hitA ray)

/-- Squared distance from the point of the ray at parameter `t` to the center. -/
def sqDist (s : Sphere F) (ray : Ray F) (t : F) : F :=
  ((ray.pointAtParameter t).sub s.center).dot ((ray.pointAtParameter t).sub s.center)

/-- Distance from the point of the ray at parameter `t` to the center, computed
with `Vec3.length`. -/
def distAt (sqrt : F → F) (s : Sphere F) (ray : Ray F) (t : F) : F :=
  ((ray.pointAtParameter t).sub s.center).length sqrt

/-- The ray's point at parameter `t` is at distance exactly `radius` from the
center of the sphere. -/
def onSphere (sqrt : F → F) (s : Sphere F) (ray : Ray F) (t : F) : Prop :=
  distAt sqrt s ray t = s.radius

/-- The blend factor `s = 0.5 * (d.y / |d| + 1)` of the background, as the
specification words it. -/
def blend (sqrt : F → F) (d : Vec3 F) : F :=
  0.5 * (d.y / d.length sqrt + 1)

/-- The colour `white * (1 - s) + sky * s` with `white = (1, 1, 1)` and
`sky = (0.5, 0.7, 1.0)`, as the specification words the background. -/
def gradient (s : F) : Vec3 F :=
  ((⟨1, 1, 1⟩ : Vec3 F).mul (1 - s)).add ((⟨0.5, 0.7, 1.0⟩ : Vec3 F).mul s)

/-- The colour `0.5 * (n + 1)`, componentwise, of a normal `n`, as the
specification words the hit branch. -/
def normalColor (n : Vec3 F) : Vec3 F :=
  ⟨0.5 * (n.x + 1), 0.5 * (n.y + 1), 0.5 * (n.z + 1)⟩

/-- Every component of the colour lies in `[0, 1]`. -/
def inUnitCube (c : Vec3 F) : Prop :=
  (0 ≤ c.x ∧ c.x ≤ 1) ∧ (0 ≤ c.y ∧ c.y ≤ 1) ∧ (0 ≤ c.z ∧ c.z ≤ 1)

/-- The ray from the camera origin straight down the `-z` axis. -/
def axisRay : Ray F := ⟨⟨0, 0, 0⟩, ⟨0, 0, -1⟩⟩

/-- The ray from the camera origin straight up the `y` axis. -/
def upRay : Ray F := ⟨⟨0, 0, 0⟩, ⟨0, 1, 0⟩⟩

/-- The sphere with center `(0, 0, -1)` and radius `1`, through the camera
origin. -/
def bigSphere : Sphere F := ⟨⟨0, 0, -1⟩, 1⟩

/-- The sphere with center `(0, 0, 0)` and radius `1`, around the camera
origin. -/
def unitSphere : Sphere F := ⟨⟨0, 0, 0⟩, 1⟩

/-- The larger root `(-b + sqrt(discriminant)) / (2a)` of the quadratic of
`Sphere.hit`, which the code never computes. -/
def farRoot (sqrt : F → F) (s : Sphere F) (ray : Ray F) : F :=
  (-hitB s ray + sqrt (hitDisc s ray)) / (2 * hitA ray)

/-- The unit normal of the sphere at the point where `Sphere.hit` says the ray
hits it: `hitPoint.sub(sphere.center).normalize()` of source line 89. -/
def hitNormal (sqrt : F → F) (sphere : Sphere F) (ray : Ray F) : Vec3 F :=
  ((ray.pointAtParameter (sphere.hit sqrt ray)).sub sphere.center).normalize sqrt

/-- The four bytes of the buffer at `offset` are the quantized channels
`⌊255.99 * c.x⌋`, `⌊255.99 * c.y⌋`, `⌊255.99 * c.z⌋` of the colour `c`, and
`255`. -/
def pixelBytes [FloorRing F] (out : Array Nat) (offset : Nat) (c : Vec3 F) : Prop :=
  (out[offset + 0]?).map Int.ofNat = some ⌊255.99 * c.x⌋ ∧
  (out[offset + 1]?).map Int.ofNat = some ⌊255.99 * c.y⌋ ∧
  (out[offset + 2]?).map Int.ofNat = some ⌊255.99 * c.z⌋ ∧
  (out[offset + 3]?).map Int.ofNat = some 255

end Vocabulary

section Real

theorem hit_unfold (s : Sphere ℝ) (ray : Ray ℝ) :
    s.hit Real.sqrt ray =
      if hitDisc s ray < 0 then -1
      else (-hitB s ray - Real.sqrt (hitDisc s ray)) / (2 * hitA ray) := by
  simp only [Sphere.hit, hitDisc, hitB, hitA, hitC]
  norm_num

theorem hitA_pos (ray : Ray ℝ) (hd : ray.direction ≠ Vec3.zero) : 0 < hitA ray := by
  obtain ⟨o, ⟨dx, dy, dz⟩⟩ := ray
  simp only [hitA, Vec3.dot]
  by_contra hle
  have h0 : dx * dx + dy * dy + dz * dz = 0 :=
    le_antisymm (not_lt.mp hle)
      (by nlinarith [mul_self_nonneg dx, mul_self_nonneg dy, mul_self_nonneg dz])
  have hx : dx = 0 := by nlinarith [mul_self_nonneg dx, mul_self_nonneg dy, mul_self_nonneg dz]
  have hy : dy = 0 := by nlinarith [mul_self_nonneg dx, mul_self_nonneg dy, mul_self_nonneg dz]
  have hz : dz = 0 := by nlinarith [mul_self_nonneg dx, mul_self_nonneg dy, mul_self_nonneg dz]
  exact hd (by simp [Vec3.zero, hx, hy, hz])

theorem sqDist_eq (s : Sphere ℝ) (ray : Ray ℝ) (t : ℝ) :
    sqDist s ray t - s.radius * s.radius = hitA ray * t * t + hitB s ray * t + hitC s ray := by
  simp only [sqDist, hitA, hitB, hitC, Ray.pointAtParameter, Vec3.add, Vec3.sub, Vec3.mul,
    Vec3.dot]
  ring

theorem sqDist_nonneg (s : Sphere ℝ) (ray : Ray ℝ) (t : ℝ) : 0 ≤ sqDist s ray t := by
  simp only [sqDist, Vec3.dot]
  nlinarith [mul_self_nonneg ((ray.pointAtParameter t).sub s.center).x,
    mul_self_nonneg ((ray.pointAtParameter t).sub s.center).y,
    mul_self_nonneg ((ray.pointAtParameter t).sub s.center).z]

theorem distAt_sq (s : Sphere ℝ) (ray : Ray ℝ) (t : ℝ) :
    distAt Real.sqrt s ray t * distAt Real.sqrt s ray t = sqDist s ray t := by
  simp only [distAt, Vec3.length]
  exact Real.mul_self_sqrt (sqDist_nonneg s ray t)

theorem distAt_nonneg (s : Sphere ℝ) (ray : Ray ℝ) (t : ℝ) : 0 ≤ distAt Real.sqrt s ray t := by
  simp only [distAt, Vec3.length]
  exact Real.sqrt_nonneg _

/-- For a non-negative radius, distance `radius` is squared distance `radius²`. -/
theorem distAt_eq_iff (s : Sphere ℝ) (ray : Ray ℝ) (t : ℝ) (hr : 0 ≤ s.radius) :
    distAt Real.sqrt s ray t = s.radius ↔ sqDist s ray t = s.radius * s.radius := by
  constructor
  · intro h
    rw [← distAt_sq, h]
  · intro h
    have h2 : distAt Real.sqrt s ray t * distAt Real.sqrt s ray t = s.radius * s.radius := by
      rw [distAt_sq, h]
    nlinarith [distAt_nonneg s ray t, mul_self_nonneg (distAt Real.sqrt s ray t - s.radius)]

/-- Completing the square. -/
theorem quad_complete (s : Sphere ℝ) (ray : Ray ℝ) (t : ℝ) :
    4 * hitA ray * (sqDist s ray t - s.radius * s.radius) =
      (2 * hitA ray * t + hitB s ray) ^ 2 - hitDisc s ray := by
  rw [sqDist_eq]
  simp only [hitDisc]
  ring

/-- A negative discriminant means that no point of the line is on the sphere. -/
theorem no_root_of_disc_neg (s : Sphere ℝ) (ray : Ray ℝ) (hneg : hitDisc s ray < 0) (t : ℝ) :
    sqDist s ray t ≠ s.radius * s.radius := by
  intro h
  have hq := quad_complete s ray t
  rw [h, sub_self, mul_zero] at hq
  nlinarith [sq_nonneg (2 * hitA ray * t + hitB s ray)]

theorem nearRoot_on (s : Sphere ℝ) (ray : Ray ℝ) (ha : 0 < hitA ray)
    (hD : 0 ≤ hitDisc s ray) : sqDist s ray (nearRoot Real.sqrt s ray) = s.radius * s.radius := by
  have hq := quad_complete s ray (nearRoot Real.sqrt s ray)
  have h1 : 2 * hitA ray * nearRoot Real.sqrt s ray + hitB s ray = -Real.sqrt (hitDisc s ray) := by
    simp only [nearRoot]
    field_simp
    ring
  rw [h1, neg_sq, Real.sq_sqrt hD, sub_self] at hq
  have h4 : (4 * hitA ray) ≠ 0 := by positivity
  have := (mul_eq_zero.mp hq).resolve_left h4
  linarith

theorem nearRoot_le (s : Sphere ℝ) (ray : Ray ℝ) (ha : 0 < hitA ray)
    (hD : 0 ≤ hitDisc s ray) (t : ℝ) (ht : sqDist s ray t = s.radius * s.radius) :
    nearRoot Real.sqrt s ray ≤ t := by
  have hq := quad_complete s ray t
  rw [ht, sub_self, mul_zero] at hq
  have hsq : (2 * hitA ray * t + hitB s ray) ^ 2 = Real.sqrt (hitDisc s ray) ^ 2 := by
    rw [Real.sq_sqrt hD]; linarith
  have habs := abs_le_of_sq_le_sq (le_of_eq hsq) (Real.sqrt_nonneg _)
  have hlow := (abs_le.mp habs).1
  simp only [nearRoot]
  rw [div_le_iff₀ (by positivity)]
  linarith

theorem exists_root_iff (s : Sphere ℝ) (ray : Ray ℝ) (ha : 0 < hitA ray) :
    (∃ t, sqDist s ray t = s.radius * s.radius) ↔ 0 ≤ hitDisc s ray := by
  constructor
  · rintro ⟨t, ht⟩
    by_contra hneg
    exact no_root_of_disc_neg s ray (not_le.mp hneg) t ht
  · intro hD
    exact ⟨nearRoot Real.sqrt s ray, nearRoot_on s ray ha hD⟩

theorem onSphere_iff (s : Sphere ℝ) (ray : Ray ℝ) (t : ℝ) (hr : 0 ≤ s.radius) :
    onSphere Real.sqrt s ray t ↔ sqDist s ray t = s.radius * s.radius :=
  distAt_eq_iff s ray t hr

theorem hit_of_disc_neg (s : Sphere ℝ) (ray : Ray ℝ) (h : hitDisc s ray < 0) :
    s.hit Real.sqrt ray = -1 := by
  rw [hit_unfold, if_pos h]

theorem hit_of_disc_nonneg (s : Sphere ℝ) (ray : Ray ℝ) (h : 0 ≤ hitDisc s ray) :
    s.hit Real.sqrt ray = nearRoot Real.sqrt s ray := by
  rw [hit_unfold, if_neg (not_lt.mpr h)]
  rfl

/-- A positive return value can only come from the root branch. -/
theorem disc_nonneg_of_hit_pos (s : Sphere ℝ) (ray : Ray ℝ) (h : s.hit Real.sqrt ray > 0) :
    0 ≤ hitDisc s ray := by
  by_contra hneg
  rw [hit_of_disc_neg s ray (not_le.mp hneg)] at h
  linarith

theorem color_hit (s : Sphere ℝ) (ray : Ray ℝ) (h : s.hit Real.sqrt ray > 0) :
    color Real.sqrt ray s =
      normalColor (((ray.pointAtParameter (s.hit Real.sqrt ray)).sub s.center).normalize
        Real.sqrt) := by
  have h0 : s.hit Real.sqrt ray > 0.0 := by norm_num; exact h
  simp only [color, if_pos h0, normalColor]
  norm_num

theorem color_miss (s : Sphere ℝ) (ray : Ray ℝ) (h : ¬ s.hit Real.sqrt ray > 0) :
    color Real.sqrt ray s = gradient (blend Real.sqrt ray.direction) := by
  have h0 : ¬ s.hit Real.sqrt ray > 0.0 := by norm_num; exact not_lt.mp h
  simp only [color, if_neg h0, gradient, blend, Vec3.normalize, Vec3.div]
  norm_num

/-- Components of a normalized non-zero vector lie in `[-1, 1]`. -/
theorem normalize_bounds (w : Vec3 ℝ) (hw : 0 < w.dot w) :
    (-1 ≤ (w.normalize Real.sqrt).x ∧ (w.normalize Real.sqrt).x ≤ 1) ∧
    (-1 ≤ (w.normalize Real.sqrt).y ∧ (w.normalize Real.sqrt).y ≤ 1) ∧
    (-1 ≤ (w.normalize Real.sqrt).z ∧ (w.normalize Real.sqrt).z ≤ 1) := by
  have hL : 0 < Real.sqrt (w.dot w) := Real.sqrt_pos.mpr hw
  have hLL : Real.sqrt (w.dot w) ^ 2 = w.dot w := Real.sq_sqrt hw.le
  have key : ∀ a : ℝ, a ^ 2 ≤ w.dot w →
      -1 ≤ a / Real.sqrt (w.dot w) ∧ a / Real.sqrt (w.dot w) ≤ 1 := by
    intro a ha
    have habs := abs_le_of_sq_le_sq (ha.trans_eq hLL.symm) hL.le
    obtain ⟨h1, h2⟩ := abs_le.mp habs
    constructor
    · rw [le_div_iff₀ hL]; linarith
    · rw [div_le_iff₀ hL]; linarith
  simp only [Vec3.normalize, Vec3.div, Vec3.length]
  refine ⟨key _ ?_, key _ ?_, key _ ?_⟩ <;>
    · simp only [Vec3.dot]
      nlinarith [mul_self_nonneg w.x, mul_self_nonneg w.y, mul_self_nonneg w.z]

theorem blend_bounds (d : Vec3 ℝ) (hd : 0 < d.dot d) :
    0 ≤ blend Real.sqrt d ∧ blend Real.sqrt d ≤ 1 := by
  have h := (normalize_bounds d hd).2.1
  simp only [Vec3.normalize, Vec3.div] at h
  simp only [blend]
  constructor <;> norm_num <;> linarith [h.1, h.2]

theorem gradient_inUnitCube (t : ℝ) (h0 : 0 ≤ t) (h1 : t ≤ 1) : inUnitCube (gradient t) := by
  simp only [inUnitCube, gradient, Vec3.add, Vec3.mul]
  norm_num
  refine ⟨⟨?_, ?_⟩, ?_, ?_⟩ <;> linarith

theorem normalColor_inUnitCube (n : Vec3 ℝ)
    (h : (-1 ≤ n.x ∧ n.x ≤ 1) ∧ (-1 ≤ n.y ∧ n.y ≤ 1) ∧ (-1 ≤ n.z ∧ n.z ≤ 1)) :
    inUnitCube (normalColor n) := by
  obtain ⟨⟨a1, a2⟩, ⟨b1, b2⟩, c1, c2⟩ := h
  simp only [inUnitCube, normalColor]
  norm_num
  refine ⟨⟨?_, ?_⟩, ⟨?_, ?_⟩, ?_, ?_⟩ <;> linarith

/-- The shader returns a colour in the unit cube whenever the radius is
positive and the direction is not zero. -/
theorem color_inUnitCube_aux (s : Sphere ℝ) (ray : Ray ℝ) (hr : 0 < s.radius)
    (hd : ray.direction ≠ Vec3.zero) : inUnitCube (color Real.sqrt ray s) := by
  have ha := hitA_pos ray hd
  by_cases h : s.hit Real.sqrt ray > 0
  · rw [color_hit s ray h]
    apply normalColor_inUnitCube
    apply normalize_bounds
    have hD := disc_nonneg_of_hit_pos s ray h
    have hon := nearRoot_on s ray ha hD
    rw [← hit_of_disc_nonneg s ray hD] at hon
    simp only [sqDist] at hon
    rw [hon]
    positivity
  · rw [color_miss s ray h]
    obtain ⟨h0, h1⟩ := blend_bounds ray.direction ha
    exact gradient_inUnitCube _ h0 h1

end Real

/-! ## The pixel buffer -/

theorem size_store (px : Array Nat) (idx : Nat) (v : Int) : (store px idx v).size = px.size := by
  simp [store]

theorem getElem?_store_ne (px : Array Nat) (idx k : Nat) (v : Int) (h : idx ≠ k) :
    (store px idx v)[k]? = px[k]? := by
  simp only [store, Array.setD]
  split
  · exact Array.getElem?_set_ne px _ _ h
  · rfl

theorem getElem?_store_eq (px : Array Nat) (k : Nat) (v : Int) (h : k < px.size) :
    (store px k v)[k]? = some (toUint8Clamped v) := by
  simp only [store]
  exact Array.getElem?_setD_eq px h _

theorem storeAll_cons (px : Array Nat) (w : Nat × Int) (stores : List (Nat × Int)) :
    storeAll px (w :: stores) = storeAll (store px w.1 w.2) stores := rfl

theorem storeAll_append (px : Array Nat) (xs ys : List (Nat × Int)) :
    storeAll px (xs ++ ys) = storeAll (storeAll px xs) ys := by
  simp [storeAll, List.foldl_append]

theorem size_storeAll (stores : List (Nat × Int)) (px : Array Nat) :
    (storeAll px stores).size = px.size := by
  induction stores generalizing px with
  | nil => rfl
  | cons w rest ih => rw [storeAll_cons, ih, size_store]

/-- A byte that no store addresses keeps its value. -/
theorem getElem?_storeAll_of_not_mem (k : Nat) (stores : List (Nat × Int)) (px : Array Nat)
    (hk : k ∉ stores.map Prod.fst) : (storeAll px stores)[k]? = px[k]? := by
  induction stores generalizing px with
  | nil => rfl
  | cons w rest ih =>
    rw [List.map_cons, List.mem_cons, not_or] at hk
    rw [storeAll_cons, ih _ hk.2]
    exact getElem?_store_ne px w.1 k w.2 (fun h => hk.1 h.symm)

/-- When no index is stored to twice, a byte that a store addresses holds the
stored value, clamped. -/
theorem getElem?_storeAll_of_mem (k : Nat) (v : Int) (stores : List (Nat × Int))
    (px : Array Nat) (hnd : (stores.map Prod.fst).Nodup) (hmem : (k, v) ∈ stores)
    (hk : k < px.size) : (storeAll px stores)[k]? = some (toUint8Clamped v) := by
  induction stores generalizing px with
  | nil => cases hmem
  | cons w rest ih =>
    rw [List.map_cons, List.nodup_cons] at hnd
    rw [storeAll_cons]
    rcases List.mem_cons.mp hmem with heq | hin
    · subst heq
      rw [getElem?_storeAll_of_not_mem k rest _ hnd.1]
      exact getElem?_store_eq px k v hk
    · exact ih _ hnd.2 hin (by rw [size_store]; exact hk)

theorem storeAll_flatMap {α : Type} (f : α → List (Nat × Int)) (l : List α) (px : Array Nat) :
    storeAll px (l.flatMap f) = l.foldl (fun px a => storeAll px (f a)) px := by
  induction l generalizing px with
  | nil => rfl
  | cons a rest ih => rw [List.flatMap_cons, storeAll_append, ih, List.foldl_cons]

/-- The render loop makes the stores of `allStores`, in order. -/
theorem render_eq_storeAll (width height : Nat) (px : Array Nat) :
    onload.render Real.sqrt width height px =
      storeAll px (onload.allStores Real.sqrt width height) := by
  simp only [onload.render, onload.renderRow, onload.renderPixel, onload.allStores,
    storeAll_flatMap]

/-! ## The indices written by the render loop -/

theorem pixelIndex_flip (width height r i : Nat) (hr : r < height) :
    onload.pixelIndex width height (height - 1 - r) i = (r * width + i) * 4 := by
  simp only [onload.pixelIndex]
  congr 3
  omega

theorem pixelStores_fst (width height j i : Nat) :
    (onload.pixelStores Real.sqrt width height j i).map Prod.fst =
      List.range' (onload.pixelIndex width height j i) 4 := by
  simp [onload.pixelStores, List.range']

theorem reverse_range (n : Nat) :
    (List.range n).reverse = (List.range n).map (fun r => n - 1 - r) := by
  apply List.ext_getElem
  · simp
  · intro k h1 h2
    simp at h1
    simp [List.getElem_reverse]

theorem flatMap_range' (b s n : Nat) :
    (List.range n).flatMap (fun i => List.range' (b + i * s) s) = List.range' b (n * s) := by
  induction n with
  | zero => simp
  | succ n ih =>
    rw [List.range_succ, List.flatMap_append, ih, List.flatMap_singleton]
    have := List.range'_append b (n * s) s 1
    rw [one_mul] at this
    rw [this]
    congr 1
    ring

/-- The render loop stores to the bytes `0, 1, ..., 4 * width * height - 1`, in
this order. -/
theorem writtenIndices_eq (width height : Nat) :
    onload.writtenIndices Real.sqrt width height = List.range (width * height * 4) := by
  simp only [onload.writtenIndices, onload.allStores, List.map_flatMap, pixelStores_fst,
    reverse_range, List.flatMap_map]
  have hrow : ∀ r ∈ List.range height,
      ((List.range width).flatMap fun i =>
        List.range' (onload.pixelIndex width height (height - 1 - r) i) 4) =
      List.range' (0 + r * (width * 4)) (width * 4) := by
    intro r hr
    rw [List.mem_range] at hr
    rw [← flatMap_range' (0 + r * (width * 4)) 4 width]
    apply List.flatMap_congr
    intro i _
    rw [pixelIndex_flip width height r i hr]
    congr 1
    ring
  rw [List.flatMap_congr hrow, flatMap_range', List.range_eq_range']
  congr 1
  ring

theorem mul_add_inj (w a a' i i' : Nat) (hi : i < w) (hi' : i' < w)
    (h : a * w + i = a' * w + i') : a = a' ∧ i = i' := by
  rcases Nat.lt_trichotomy a a' with hlt | heq | hgt
  · have h1 : (a + 1) * w ≤ a' * w := Nat.mul_le_mul_right w hlt
    rw [Nat.succ_mul] at h1
    omega
  · subst heq
    exact ⟨rfl, by omega⟩
  · have h1 : (a' + 1) * w ≤ a * w := Nat.mul_le_mul_right w hgt
    rw [Nat.succ_mul] at h1
    omega

theorem pixelIndex_inj (width height i j i' j' : Nat) (hi : i < width) (hj : j < height)
    (hi' : i' < width) (hj' : j' < height)
    (h : onload.pixelIndex width height j i = onload.pixelIndex width height j' i') :
    i = i' ∧ j = j' := by
  simp only [onload.pixelIndex] at h
  have h2 : (height - 1 - j) * width + i = (height - 1 - j') * width + i' := by omega
  obtain ⟨ha, hb⟩ := mul_add_inj width _ _ i i' hi hi' h2
  exact ⟨hb, by omega⟩

theorem pixelIndex_surj (width height m : Nat) (hm : m < width * height) :
    ∃ i j, i < width ∧ j < height ∧ onload.pixelIndex width height j i = 4 * m := by
  have hw : 0 < width := by
    rcases Nat.eq_zero_or_pos width with h0 | hpos
    · rw [h0, Nat.zero_mul] at hm
      exact absurd hm (Nat.not_lt_zero _)
    · exact hpos
  have hr : m / width < height := by
    rw [Nat.div_lt_iff_lt_mul hw, Nat.mul_comm]
    exact hm
  have hj : height - 1 - m / width < height := by
    generalize m / width = q at hr
    omega
  have hflip : height - 1 - (height - 1 - m / width) = m / width := by
    generalize m / width = q at hr
    omega
  refine ⟨m % width, height - 1 - m / width, Nat.mod_lt _ hw, hj, ?_⟩
  simp only [onload.pixelIndex, hflip, Nat.div_add_mod' m width]
  omega

/-! ## The fixed scene -/

theorem ray_direction (width height j i : Nat) :
    (onload.ray width height j i : Ray ℝ).direction =
      ⟨-2 + 4 * ((i : ℝ) / ((width : ℝ) - 1)), -1 + 2 * ((j : ℝ) / ((height : ℝ) - 1)), -1⟩ := by
  simp only [onload.ray, onload.lowerLeftCorner, onload.horizontal, onload.vertical,
    onload.origin, Vec3.add, Vec3.sub, Vec3.mul]
  ext <;> norm_num

theorem ray_direction_ne (width height j i : Nat) :
    (onload.ray width height j i : Ray ℝ).direction ≠ Vec3.zero := by
  intro h
  have := congrArg Vec3.z h
  rw [ray_direction] at this
  simp [Vec3.zero] at this

theorem sphere_radius_pos : (0 : ℝ) < (onload.sphere : Sphere ℝ).radius := by
  norm_num [onload.sphere]

/-- Every pixel of the fixed scene gets a colour in the unit cube. -/
theorem scene_color_inUnitCube (width height j i : Nat) :
    inUnitCube (color Real.sqrt (onload.ray width height j i) onload.sphere) :=
  color_inUnitCube_aux _ _ sphere_radius_pos (ray_direction_ne width height j i)

/-! ## Quantization -/

theorem floor_byte (c : ℝ) (h0 : 0 ≤ c) (h1 : c ≤ 1) :
    0 ≤ ⌊255.99 * c⌋ ∧ ⌊255.99 * c⌋ ≤ 255 := by
  constructor
  · rw [Int.floor_nonneg]
    positivity
  · have h : ⌊255.99 * c⌋ < 256 := by
      rw [Int.floor_lt]
      norm_num
      nlinarith
    omega

theorem toUint8Clamped_of_byte (n : Int) (h0 : 0 ≤ n) (h1 : n ≤ 255) :
    (toUint8Clamped n : Int) = n := by
  simp only [toUint8Clamped]
  rw [min_eq_right h1, max_eq_right h0]
  exact Int.toNat_of_nonneg h0

/-- The values stored for one pixel of the fixed scene are bytes. -/
theorem pixelStores_byte (width height j i : Nat) (w : Nat × Int)
    (hw : w ∈ onload.pixelStores Real.sqrt width height j i) : 0 ≤ w.2 ∧ w.2 ≤ 255 := by
  obtain ⟨⟨x0, x1⟩, ⟨y0, y1⟩, z0, z1⟩ := scene_color_inUnitCube width height j i
  simp only [onload.pixelStores, List.mem_cons, List.mem_singleton, List.not_mem_nil,
    or_false] at hw
  rcases hw with h | h | h | h <;> subst h
  · exact floor_byte _ x0 x1
  · exact floor_byte _ y0 y1
  · exact floor_byte _ z0 z1
  · exact ⟨by norm_num, le_refl _⟩

/-- After the render loop, a byte addressed by a store of pixel `(i, j)` holds
the value of that store. -/
theorem render_getElem? (width height : Nat) (px : Array Nat)
    (hsize : px.size = width * height * 4) (j i : Nat) (hj : j < height) (hi : i < width)
    (w : Nat × Int) (hw : w ∈ onload.pixelStores Real.sqrt width height j i) :
    ((onload.render Real.sqrt width height px)[w.1]?).map Int.ofNat = some w.2 := by
  have hmem : (w.1, w.2) ∈ onload.allStores Real.sqrt width height := by
    simp only [onload.allStores, List.mem_flatMap, List.mem_reverse, List.mem_range]
    exact ⟨j, hj, i, hi, hw⟩
  have hnd : ((onload.allStores Real.sqrt width height).map Prod.fst).Nodup := by
    have := writtenIndices_eq width height
    simp only [onload.writtenIndices] at this
    rw [this]
    exact List.nodup_range _
  have hlt : w.1 < px.size := by
    have h1 : w.1 ∈ (onload.allStores Real.sqrt width height).map Prod.fst :=
      List.mem_map.mpr ⟨w, hmem, rfl⟩
    have := writtenIndices_eq width height
    simp only [onload.writtenIndices] at this
    rw [this, List.mem_range] at h1
    rw [hsize]
    exact h1
  rw [render_eq_storeAll, getElem?_storeAll_of_mem w.1 w.2 _ px hnd hmem hlt, Option.map_some']
  congr 1
  exact toUint8Clamped_of_byte w.2 (pixelStores_byte width height j i w hw).1
    (pixelStores_byte width height j i w hw).2

/-! ## Further facts about the roots -/

theorem farRoot_on (s : Sphere ℝ) (ray : Ray ℝ) (ha : 0 < hitA ray)
    (hD : 0 ≤ hitDisc s ray) : sqDist s ray (farRoot Real.sqrt s ray) = s.radius * s.radius := by
  have hq := quad_complete s ray (farRoot Real.sqrt s ray)
  have h1 : 2 * hitA ray * farRoot Real.sqrt s ray + hitB s ray = Real.sqrt (hitDisc s ray) := by
    simp only [farRoot]
    field_simp
  rw [h1, Real.sq_sqrt hD, sub_self] at hq
  have h4 : (4 * hitA ray) ≠ 0 := by positivity
  have := (mul_eq_zero.mp hq).resolve_left h4
  linarith

/-- With `b² < discriminant`, the near root is negative and the far root
positive. -/
theorem roots_straddle (s : Sphere ℝ) (ray : Ray ℝ) (ha : 0 < hitA ray)
    (hlt : hitB s ray ^ 2 < hitDisc s ray) :
    nearRoot Real.sqrt s ray < 0 ∧ 0 < farRoot Real.sqrt s ray := by
  have habs : |hitB s ray| < Real.sqrt (hitDisc s ray) := by
    rw [Real.lt_sqrt (abs_nonneg _), sq_abs]
    exact hlt
  obtain ⟨h1, h2⟩ := abs_lt.mp habs
  constructor
  · simp only [nearRoot]
    apply div_neg_of_neg_of_pos
    · linarith
    · linarith
  · simp only [farRoot]
    apply div_pos
    · linarith
    · linarith

/-- With `a > 0`, `b < 0`, `c > 0` and a non-negative discriminant, the near
root is positive. -/
theorem nearRoot_pos (s : Sphere ℝ) (ray : Ray ℝ) (ha : 0 < hitA ray)
    (hb : hitB s ray < 0) (hc : 0 < hitC s ray) :
    0 < nearRoot Real.sqrt s ray := by
  have hlt : hitDisc s ray < (-hitB s ray) ^ 2 := by
    simp only [hitDisc]
    nlinarith [mul_pos ha hc]
  have hs : Real.sqrt (hitDisc s ray) < -hitB s ray := by
    rw [Real.sqrt_lt' (by linarith)]
    exact hlt
  simp only [nearRoot]
  apply div_pos
  · linarith
  · linarith

/-- The length of a normalized non-zero vector is `1`. -/
theorem length_normalize (v : Vec3 ℝ) (hpos : 0 < v.dot v) :
    (v.normalize Real.sqrt).length Real.sqrt = 1 := by
  have hL : 0 < Real.sqrt (v.dot v) := Real.sqrt_pos.mpr hpos
  have hLL : Real.sqrt (v.dot v) * Real.sqrt (v.dot v) = v.dot v := Real.mul_self_sqrt hpos.le
  simp only [Vec3.normalize, Vec3.length, Vec3.div]
  have : (Vec3.dot ⟨v.x / Real.sqrt (v.dot v), v.y / Real.sqrt (v.dot v),
      v.z / Real.sqrt (v.dot v)⟩ ⟨v.x / Real.sqrt (v.dot v), v.y / Real.sqrt (v.dot v),
      v.z / Real.sqrt (v.dot v)⟩ : ℝ) = 1 := by
    simp only [Vec3.dot] at hLL hL ⊢
    generalize Real.sqrt (v.x * v.x + v.y * v.y + v.z * v.z) = L at hLL hL
    field_simp
    linarith
  rw [this, Real.sqrt_one]

/-! ## Coefficients of the intersection test in the fixed scene -/

theorem ray_origin (width height j i : Nat) :
    (onload.ray width height j i : Ray ℝ).origin = ⟨0, 0, 0⟩ := by
  simp only [onload.ray, onload.origin]
  ext <;> norm_num

theorem scene_hitA (width height j i : Nat) :
    1 ≤ hitA (onload.ray width height j i : Ray ℝ) := by
  simp only [hitA, ray_direction, Vec3.dot]
  nlinarith [mul_self_nonneg (-2 + 4 * ((i : ℝ) / ((width : ℝ) - 1))),
    mul_self_nonneg (-1 + 2 * ((j : ℝ) / ((height : ℝ) - 1)))]

theorem scene_hitB (width height j i : Nat) :
    hitB onload.sphere (onload.ray width height j i : Ray ℝ) = -2 := by
  simp only [hitB, ray_direction, ray_origin, onload.sphere, Vec3.dot, Vec3.sub]
  norm_num

theorem scene_hitC (width height j i : Nat) :
    hitC onload.sphere (onload.ray width height j i : Ray ℝ) = 3 / 4 := by
  simp only [hitC, ray_origin, onload.sphere, Vec3.dot, Vec3.sub]
  norm_num

/-- In the fixed scene a value `> 0` returned by `Sphere.hit` is the parameter
of a point at squared distance `radius²` from the center. -/
theorem scene_hit_on (width height j i : Nat)
    (h : (onload.sphere : Sphere ℝ).hit Real.sqrt (onload.ray width height j i) > 0) :
    sqDist onload.sphere (onload.ray width height j i)
      ((onload.sphere : Sphere ℝ).hit Real.sqrt (onload.ray width height j i)) = 1 / 4 := by
  have ha : 0 < hitA (onload.ray width height j i : Ray ℝ) :=
    lt_of_lt_of_le one_pos (scene_hitA width height j i)
  have hD := disc_nonneg_of_hit_pos _ _ h
  rw [hit_of_disc_nonneg _ _ hD, nearRoot_on _ _ ha hD]
  norm_num [onload.sphere]

/-! ## Scaling the direction of a ray -/

theorem scaled_hitA (o d : Vec3 ℝ) (k : ℝ) :
    hitA (⟨o, d.mul k⟩ : Ray ℝ) = k ^ 2 * hitA (⟨o, d⟩ : Ray ℝ) := by
  simp only [hitA, Vec3.dot, Vec3.mul]
  ring

theorem scaled_hitB (s : Sphere ℝ) (o d : Vec3 ℝ) (k : ℝ) :
    hitB s (⟨o, d.mul k⟩ : Ray ℝ) = k * hitB s (⟨o, d⟩ : Ray ℝ) := by
  simp only [hitB, Vec3.dot, Vec3.mul, Vec3.sub]
  ring

theorem scaled_hitC (s : Sphere ℝ) (o d : Vec3 ℝ) (k : ℝ) :
    hitC s (⟨o, d.mul k⟩ : Ray ℝ) = hitC s (⟨o, d⟩ : Ray ℝ) := rfl

theorem scaled_hitDisc (s : Sphere ℝ) (o d : Vec3 ℝ) (k : ℝ) :
    hitDisc s (⟨o, d.mul k⟩ : Ray ℝ) = k ^ 2 * hitDisc s (⟨o, d⟩ : Ray ℝ) := by
  simp only [hitDisc, scaled_hitA, scaled_hitB, scaled_hitC]
  ring

theorem sqrt_sq_mul (k x : ℝ) (hk : 0 < k) : Real.sqrt (k ^ 2 * x) = k * Real.sqrt x := by
  rw [Real.sqrt_mul (sq_nonneg k), Real.sqrt_sq hk.le]

theorem scaled_disc_neg_iff (s : Sphere ℝ) (o d : Vec3 ℝ) (k : ℝ) (hk : 0 < k) :
    hitDisc s (⟨o, d.mul k⟩ : Ray ℝ) < 0 ↔ hitDisc s (⟨o, d⟩ : Ray ℝ) < 0 := by
  rw [scaled_hitDisc]
  have hk2 : 0 < k ^ 2 := by positivity
  constructor
  · intro h
    by_contra hge
    have := mul_nonneg hk2.le (not_lt.mp hge)
    linarith
  · intro h
    exact mul_neg_of_pos_of_neg hk2 h

theorem scaled_nearRoot (s : Sphere ℝ) (o d : Vec3 ℝ) (k : ℝ) (hk : 0 < k)
    (ha : 0 < hitA (⟨o, d⟩ : Ray ℝ)) :
    nearRoot Real.sqrt s (⟨o, d.mul k⟩ : Ray ℝ) = nearRoot Real.sqrt s (⟨o, d⟩ : Ray ℝ) / k := by
  simp only [nearRoot, scaled_hitA, scaled_hitB, scaled_hitDisc, sqrt_sq_mul _ _ hk]
  field_simp
  ring

theorem scaled_length (d : Vec3 ℝ) (k : ℝ) (hk : 0 < k) :
    (d.mul k).length Real.sqrt = k * d.length Real.sqrt := by
  simp only [Vec3.length]
  rw [← sqrt_sq_mul k (d.dot d) hk]
  congr 1
  simp only [Vec3.dot, Vec3.mul]
  ring

theorem scaled_blend (d : Vec3 ℝ) (k : ℝ) (hk : 0 < k) :
    blend Real.sqrt (d.mul k) = blend Real.sqrt d := by
  simp only [blend, scaled_length d k hk]
  congr 2
  simp only [Vec3.mul]
  rw [mul_comm k, mul_div_mul_right _ _ hk.ne']

theorem scaled_point (o d : Vec3 ℝ) (k t : ℝ) (hk : 0 < k) :
    (⟨o, d.mul k⟩ : Ray ℝ).pointAtParameter (t / k) = (⟨o, d⟩ : Ray ℝ).pointAtParameter t := by
  simp only [Ray.pointAtParameter, Vec3.add, Vec3.mul]
  ext <;> simp only <;> field_simp <;> ring

/-! ## Reading a pixel after the render loop -/

/-- After the render loop the four bytes of image row `r`, column `i` are the
quantized colour of the camera ray of world row `height - 1 - r`, and `255`. -/
theorem render_pixelBytes (width height : Nat) (px : Array Nat)
    (hsize : px.size = width * height * 4) (i r : Nat) (hi : i < width) (hr : r < height) :
    pixelBytes (onload.render Real.sqrt width height px) ((r * width + i) * 4)
      (color Real.sqrt (onload.ray width height (height - 1 - r) i) onload.sphere) := by
  have hj : height - 1 - r < height := by omega
  have hflip := pixelIndex_flip width height r i hr
  have key := render_getElem? width height px hsize (height - 1 - r) i hj hi
  refine ⟨?_, ?_, ?_, ?_⟩
  · have := key (onload.pixelIndex width height (height - 1 - r) i + 0, _)
      (by simp only [onload.pixelStores]; exact List.mem_cons_self _ _)
    rwa [hflip] at this
  · have := key (onload.pixelIndex width height (height - 1 - r) i + 1, _)
      (by simp only [onload.pixelStores]
          exact List.mem_cons_of_mem _ (List.mem_cons_self _ _))
    rwa [hflip] at this
  · have := key (onload.pixelIndex width height (height - 1 - r) i + 2, _)
      (by simp only [onload.pixelStores]
          exact List.mem_cons_of_mem _ (List.mem_cons_of_mem _ (List.mem_cons_self _ _)))
    rwa [hflip] at this
  · have := key (onload.pixelIndex width height (height - 1 - r) i + 3, 255)
      (by simp [onload.pixelStores])
    rwa [hflip] at this

theorem scene_hitDisc (width height j i : Nat) :
    hitDisc onload.sphere (onload.ray width height j i : Ray ℝ) =
      4 - 3 * hitA (onload.ray width height j i : Ray ℝ) := by
  simp only [hitDisc, scene_hitB, scene_hitC]
  ring

/-- A pixel of the fixed scene whose discriminant is negative shows the
background gradient. -/
theorem render_background (width height : Nat) (px : Array Nat)
    (hsize : px.size = width * height * 4) (i r : Nat) (hi : i < width) (hr : r < height)
    (hD : hitDisc onload.sphere (onload.ray width height (height - 1 - r) i : Ray ℝ) < 0) :
    pixelBytes (onload.render Real.sqrt width height px) ((r * width + i) * 4)
      (gradient (blend Real.sqrt
        (onload.ray width height (height - 1 - r) i : Ray ℝ).direction)) := by
  have h := render_pixelBytes width height px hsize i r hi hr
  rwa [color_miss _ _ (by rw [hit_of_disc_neg _ _ hD]; norm_num)] at h

/-- A pixel of the fixed scene whose ray hits the sphere shows the colour of the
unit normal at the hit point. -/
theorem render_hit (width height : Nat) (px : Array Nat)
    (hsize : px.size = width * height * 4) (i r : Nat) (hi : i < width) (hr : r < height)
    (hpos : (onload.sphere : Sphere ℝ).hit Real.sqrt
      (onload.ray width height (height - 1 - r) i) > 0) :
    pixelBytes (onload.render Real.sqrt width height px) ((r * width + i) * 4)
      (normalColor (hitNormal Real.sqrt onload.sphere
        (onload.ray width height (height - 1 - r) i : Ray ℝ))) ∧
    (hitNormal Real.sqrt onload.sphere
      (onload.ray width height (height - 1 - r) i : Ray ℝ)).length Real.sqrt = 1 := by
  have h := render_pixelBytes width height px hsize i r hi hr
  rw [color_hit _ _ hpos] at h
  refine ⟨h, ?_⟩
  apply length_normalize
  have hon := scene_hit_on width height (height - 1 - r) i hpos
  simp only [sqDist] at hon
  rw [hon]
  norm_num

/-- In the fixed scene `Sphere.hit` returns a value `> 0` as soon as the
discriminant is not negative. -/
theorem scene_hit_pos (width height j i : Nat)
    (hD : 0 ≤ hitDisc onload.sphere (onload.ray width height j i : Ray ℝ)) :
    (onload.sphere : Sphere ℝ).hit Real.sqrt (onload.ray width height j i) > 0 := by
  rw [hit_of_disc_nonneg _ _ hD]
  apply nearRoot_pos
  · exact lt_of_lt_of_le one_pos (scene_hitA width height j i)
  · rw [scene_hitB]; norm_num
  · rw [scene_hitC]; norm_num

/-! ## NaN in the arithmetic of doubles -/

theorem Double.nan_add (x : Double) : Double.nan + x = Double.nan := by
  cases x <;> rfl

theorem Double.add_nan (x : Double) : x + Double.nan = Double.nan := by
  cases x <;> rfl

theorem Double.nan_sub (x : Double) : Double.nan - x = Double.nan := by
  cases x <;> rfl

theorem Double.sub_nan (x : Double) : x - Double.nan = Double.nan := by
  cases x <;> rfl

theorem Double.nan_mul (x : Double) : Double.nan * x = Double.nan := by
  cases x <;> rfl

theorem Double.mul_nan (x : Double) : x * Double.nan = Double.nan := by
  cases x <;> rfl

theorem Double.nan_div (x : Double) : Double.nan / x = Double.nan := by
  cases x <;> rfl

theorem Double.div_nan (x : Double) : x / Double.nan = Double.nan := by
  cases x <;> rfl

theorem Double.neg_nan : -Double.nan = Double.nan := rfl

theorem Double.sqrt_nan : Double.sqrt Double.nan = Double.nan := rfl

theorem Double.floor_nan : Double.floor Double.nan = Double.nan := rfl

theorem Double.not_nan_lt (x : Double) : ¬ (Double.nan < x) := by
  intro h
  cases x <;> exact Bool.noConfusion h

theorem Double.not_lt_nan (x : Double) : ¬ (x < Double.nan) := by
  intro h
  cases x <;> exact Bool.noConfusion h

/-- A ray whose direction is NaN in every component is shaded NaN. -/
theorem color_nan_direction (o : Vec3 Double) (s : Sphere Double) :
    color Double.sqrt ⟨o, ⟨Double.nan, Double.nan, Double.nan⟩⟩ s =
      ⟨Double.nan, Double.nan, Double.nan⟩ := by
  have hhit : s.hit Double.sqrt ⟨o, ⟨Double.nan, Double.nan, Double.nan⟩⟩ = Double.nan := by
    simp only [Sphere.hit, Vec3.dot, Vec3.sub, Double.mul_nan, Double.nan_mul, Double.nan_add,
      Double.add_nan, Double.nan_sub, Double.sub_nan, Double.neg_nan, Double.sqrt_nan,
      Double.nan_div, Double.div_nan]
    rw [if_neg (Double.not_nan_lt _)]
  simp only [color, hhit]
  rw [if_neg (Double.not_lt_nan _)]
  simp only [Vec3.normalize, Vec3.length, Vec3.div, Vec3.dot, Vec3.add, Vec3.mul,
    Double.mul_nan, Double.nan_mul, Double.nan_add, Double.add_nan, Double.nan_sub,
    Double.sub_nan, Double.sqrt_nan, Double.nan_div, Double.div_nan]

/-- With `width = 1` the column fraction `u` is `0 / 0`, and with `height = 1`
the row fraction `v` is: the direction of the ray is NaN in every component. -/
theorem ray_direction_nan (width height j i : Nat) (hi : i < width) (hj : j < height)
    (hdeg : width = 1 ∨ height = 1) :
    (onload.ray width height j i : Ray Double).direction =
      ⟨Double.nan, Double.nan, Double.nan⟩ := by
  rcases hdeg with h | h
  · subst h
    have hi0 : i = 0 := by omega
    subst hi0
    have hu : ((0 : ℕ) : Double) / (((1 : ℕ) : Double) - 1) = Double.nan := by decide
    simp only [onload.ray, hu, Vec3.add, Vec3.sub, Vec3.mul, onload.lowerLeftCorner,
      onload.horizontal, onload.vertical, onload.origin, Double.mul_nan, Double.nan_add,
      Double.add_nan, Double.nan_sub]
  · subst h
    have hj0 : j = 0 := by omega
    subst hj0
    have hv : ((0 : ℕ) : Double) / (((1 : ℕ) : Double) - 1) = Double.nan := by decide
    simp only [onload.ray, hv, Vec3.add, Vec3.sub, Vec3.mul, onload.lowerLeftCorner,
      onload.horizontal, onload.vertical, onload.origin, Double.mul_nan, Double.nan_add,
      Double.add_nan, Double.nan_sub]

theorem ray_origin_double (width height j i : Nat) :
    (onload.ray width height j i : Ray Double).origin = onload.origin := rfl

/-- The stores made for a pixel of a degenerate frame: `NaN` for the three colour
channels, `255` for alpha. -/
theorem pixelStoresDouble_degenerate (width height j i : Nat) (hi : i < width)
    (hj : j < height) (hdeg : width = 1 ∨ height = 1) :
    onload.pixelStoresDouble width height j i =
      [(onload.pixelIndex width height j i + 0, Double.nan),
       (onload.pixelIndex width height j i + 1, Double.nan),
       (onload.pixelIndex width height j i + 2, Double.nan),
       (onload.pixelIndex width height j i + 3, 255)] := by
  have hray : (onload.ray width height j i : Ray Double) =
      ⟨onload.origin, ⟨Double.nan, Double.nan, Double.nan⟩⟩ := by
    rw [← ray_direction_nan width height j i hi hj hdeg]
    rfl
  simp only [onload.pixelStoresDouble, hray, color_nan_direction, Double.mul_nan,
    Double.floor_nan]

/-! ## The render loop on doubles -/

theorem Double.toUint8Clamp_le (v : Double) : Double.toUint8Clamp v ≤ 255 := by
  cases v with
  | nan => simp [Double.toUint8Clamp]
  | inf s => cases s <;> simp [Double.toUint8Clamp]
  | fin s m e =>
    simp only [Double.toUint8Clamp]
    split_ifs <;> first | exact Nat.zero_le _ | exact Nat.min_le_left _ _

theorem storeDouble_eq_store (px : Array Nat) (idx : Nat) (v : Double) :
    storeDouble px idx v = store px idx ((Double.toUint8Clamp v : Nat) : Int) := by
  have h : toUint8Clamped ((Double.toUint8Clamp v : Nat) : Int) = Double.toUint8Clamp v := by
    have := toUint8Clamped_of_byte ((Double.toUint8Clamp v : Nat) : Int)
      (Int.ofNat_nonneg _) (by exact_mod_cast Double.toUint8Clamp_le v)
    exact_mod_cast this
  simp only [storeDouble, store, h]

theorem renderPixelDouble_eq (width height : Nat) (px : Array Nat) (j i : Nat) :
    onload.renderPixelDouble width height px j i =
      storeAll px ((onload.pixelStoresDouble width height j i).map
        fun w => (w.1, ((Double.toUint8Clamp w.2 : Nat) : Int))) := by
  simp only [onload.renderPixelDouble, storeAll, List.foldl_map, storeDouble_eq_store]

/-- The render loop on doubles makes the stores of `allStoresDouble`, in order. -/
theorem renderDouble_eq_storeAll (width height : Nat) (px : Array Nat) :
    onload.renderDouble width height px = storeAll px (onload.allStoresDouble width height) := by
  simp only [onload.renderDouble, onload.renderRowDouble, renderPixelDouble_eq,
    onload.allStoresDouble, storeAll_flatMap]

/-- The indices `pixelIndex + 0, ..., pixelIndex + 3` over the whole loop are
`0, 1, ..., 4 * width * height - 1`, in this order. -/
theorem flatMap_pixelIndex (width height : Nat) :
    ((List.range height).reverse.flatMap fun j =>
      (List.range width).flatMap fun i =>
        List.range' (onload.pixelIndex width height j i) 4) =
      List.range (width * height * 4) := by
  simp only [reverse_range, List.flatMap_map]
  have hrow : ∀ r ∈ List.range height,
      ((List.range width).flatMap fun i =>
        List.range' (onload.pixelIndex width height (height - 1 - r) i) 4) =
      List.range' (0 + r * (width * 4)) (width * 4) := by
    intro r hr
    rw [List.mem_range] at hr
    rw [← flatMap_range' (0 + r * (width * 4)) 4 width]
    apply List.flatMap_congr
    intro i _
    rw [pixelIndex_flip width height r i hr]
    congr 1
    ring
  rw [List.flatMap_congr hrow, flatMap_range', List.range_eq_range']
  congr 1
  ring

theorem allStoresDouble_fst (width height : Nat) :
    (onload.allStoresDouble width height).map Prod.fst = List.range (width * height * 4) := by
  rw [← flatMap_pixelIndex]
  simp only [onload.allStoresDouble, List.map_flatMap, List.map_map]
  apply List.flatMap_congr
  intro j _
  apply List.flatMap_congr
  intro i _
  simp [onload.pixelStoresDouble, List.range']

/-- After the render loop on doubles, a byte addressed by a store of pixel
`(i, j)` holds the byte of the number stored. -/
theorem renderDouble_getElem? (width height : Nat) (px : Array Nat)
    (hsize : px.size = width * height * 4) (j i : Nat) (hj : j < height) (hi : i < width)
    (w : Nat × Double) (hw : w ∈ onload.pixelStoresDouble width height j i) :
    (onload.renderDouble width height px)[w.1]? = some (Double.toUint8Clamp w.2) := by
  have hmem : (w.1, ((Double.toUint8Clamp w.2 : Nat) : Int)) ∈
      onload.allStoresDouble width height := by
    simp only [onload.allStoresDouble, List.mem_flatMap, List.mem_reverse, List.mem_range,
      List.mem_map]
    exact ⟨j, hj, i, hi, w, hw, rfl⟩
  have hnd : ((onload.allStoresDouble width height).map Prod.fst).Nodup := by
    rw [allStoresDouble_fst]
    exact List.nodup_range _
  have hlt : w.1 < px.size := by
    have h1 : w.1 ∈ (onload.allStoresDouble width height).map Prod.fst :=
      List.mem_map.mpr ⟨_, hmem, rfl⟩
    rw [allStoresDouble_fst, List.mem_range] at h1
    rw [hsize]
    exact h1
  rw [renderDouble_eq_storeAll, getElem?_storeAll_of_mem w.1 _ _ px hnd hmem hlt]
  congr 1
  have := toUint8Clamped_of_byte ((Double.toUint8Clamp w.2 : Nat) : Int)
    (Int.ofNat_nonneg _) (by exact_mod_cast Double.toUint8Clamp_le w.2)
  exact_mod_cast this

/-- The line `x = 0, y = 7205759403792795 / 2^56` misses the sphere with center
`(0, 0, -1)` and radius `7205759403792794 / 2^56`: the exact values of the
doubles `0.10000000000000002` and `0.1`. -/
theorem near_tangent_line_misses :
    ¬ ∃ t : ℝ, onSphere Real.sqrt ⟨⟨0, 0, -1⟩, 7205759403792794 / 2 ^ 56⟩
      ⟨⟨0, 7205759403792795 / 2 ^ 56, 0⟩, ⟨0, 0, -1⟩⟩ t := by
  have hd : (⟨⟨0, 7205759403792795 / 2 ^ 56, 0⟩, ⟨0, 0, -1⟩⟩ : Ray ℝ).direction ≠ Vec3.zero := by
    intro h
    have := congrArg Vec3.z h
    simp [Vec3.zero] at this
  have ha := hitA_pos _ hd
  have hr : (0 : ℝ) ≤ (⟨⟨0, 0, -1⟩, 7205759403792794 / 2 ^ 56⟩ : Sphere ℝ).radius := by
    norm_num
  have hD : hitDisc (⟨⟨0, 0, -1⟩, 7205759403792794 / 2 ^ 56⟩ : Sphere ℝ)
      ⟨⟨0, 7205759403792795 / 2 ^ 56, 0⟩, ⟨0, 0, -1⟩⟩ < 0 := by
    simp only [hitDisc, hitA, hitB, hitC, Vec3.dot, Vec3.sub]
    norm_num
  rintro ⟨t, ht⟩
  exact no_root_of_disc_neg _ _ hD t ((onSphere_iff _ _ t hr).mp ht)

/-! ## Evaluations on doubles -/

section DoubleEvaluations

set_option maxRecDepth 1000000

theorem normalize_3_4_0_double :
    (⟨3, 4, 0⟩ : Vec3 Double).normalize Double.sqrt = ⟨0.6, 0.8, 0⟩ ∧
    (⟨3, 4, 0⟩ : Vec3 Double).length Double.sqrt = 5 := by
  decide

end DoubleEvaluations

theorem axisRay_direction_ne : (axisRay : Ray ℝ).direction ≠ Vec3.zero := by
  intro h
  have := congrArg Vec3.z h
  simp [axisRay, Vec3.zero] at this

theorem upRay_direction_ne : (upRay : Ray ℝ).direction ≠ Vec3.zero := by
  intro h
  have := congrArg Vec3.y h
  simp [upRay, Vec3.zero] at this

theorem hit_upRay : (onload.sphere : Sphere ℝ).hit Real.sqrt upRay = -1 := by
  simp only [Sphere.hit, onload.sphere, upRay, Vec3.sub, Vec3.dot]
  norm_num

/-! ## The intersection test and the shader -/

section Claims

/-- For the sphere with center `(0,0,-1)` and radius
`-0.5` and the ray from the origin with direction `(0,0,-1)`, whose direction is
not the zero vector, no real `t` puts `pointAtParameter t` at distance exactly
`radius` from the center, and yet `hit` does not return `-1` (it returns `0.5`). -/
theorem hit_negative_radius_counterexample :
    (⟨⟨0, 0, 0⟩, ⟨0, 0, -1⟩⟩ : Ray ℝ).direction ≠ Vec3.zero ∧
    (¬ ∃ t : ℝ, onSphere Real.sqrt ⟨⟨0, 0, -1⟩, -0.5⟩ ⟨⟨0, 0, 0⟩, ⟨0, 0, -1⟩⟩ t) ∧
    Sphere.hit Real.sqrt ⟨⟨0, 0, -1⟩, -0.5⟩ ⟨⟨0, 0, 0⟩, ⟨0, 0, -1⟩⟩ = 0.5 ∧
    Sphere.hit Real.sqrt ⟨⟨0, 0, -1⟩, -0.5⟩ ⟨⟨0, 0, 0⟩, ⟨0, 0, -1⟩⟩ ≠ -1 := by
  have hhit : Sphere.hit Real.sqrt ⟨⟨0, 0, -1⟩, -0.5⟩ ⟨⟨0, 0, 0⟩, ⟨0, 0, -1⟩⟩ = (0.5 : ℝ) := by
    simp only [Sphere.hit, Vec3.sub, Vec3.dot]
    norm_num
  refine ⟨?_, ?_, hhit, ?_⟩
  · intro h
    have := congrArg Vec3.z h
    simp [Vec3.zero] at this
  · rintro ⟨t, ht⟩
    have h0 := distAt_nonneg ⟨⟨0, 0, -1⟩, -0.5⟩ ⟨⟨0, 0, 0⟩, ⟨0, 0, -1⟩⟩ t
    simp only [onSphere] at ht
    rw [ht] at h0
    norm_num at h0
  · rw [hhit]; norm_num

/-- C1 (amended): in exact real arithmetic, `Sphere.hit` computes the near
intersection for every sphere with radius `≥ 0` and every ray whose direction is not the zero vector: if no
real `t` puts `pointAtParameter t` at distance exactly `radius` from the center
then `hit` returns `-1`; otherwise `hit` returns `t0` such that the squared
distance of `pointAtParameter t0` to the center equals `radius²` (the point is
at distance `radius`) and `t0 ≤ t` for every `t` whose point lies on the
sphere. -/
theorem hit_near_intersection (s : Sphere ℝ) (ray : Ray ℝ)
    (hd : ray.direction ≠ Vec3.zero) (hr : 0 ≤ s.radius) :
    ((¬ ∃ t : ℝ, onSphere Real.sqrt s ray t) → s.hit Real.sqrt ray = -1) ∧
    ((∃ t : ℝ, onSphere Real.sqrt s ray t) →
      sqDist s ray (s.hit Real.sqrt ray) = s.radius * s.radius ∧
      onSphere Real.sqrt s ray (s.hit Real.sqrt ray) ∧
      ∀ t : ℝ, onSphere Real.sqrt s ray t → s.hit Real.sqrt ray ≤ t) := by
  have ha := hitA_pos ray hd
  have hex : (∃ t : ℝ, onSphere Real.sqrt s ray t) ↔ 0 ≤ hitDisc s ray := by
    rw [← exists_root_iff s ray ha]
    exact exists_congr fun t => onSphere_iff s ray t hr
  constructor
  · intro hno
    rw [hex, not_le] at hno
    exact hit_of_disc_neg s ray hno
  · intro hyes
    have hD := hex.mp hyes
    rw [hit_of_disc_nonneg s ray hD]
    refine ⟨nearRoot_on s ray ha hD, (onSphere_iff s ray _ hr).mpr (nearRoot_on s ray ha hD), ?_⟩
    intro t ht
    exact nearRoot_le s ray ha hD t ((onSphere_iff s ray t hr).mp ht)

/-- Witness for `hit_near_intersection`: the sphere of radius `1` through the
camera origin and the ray straight down the `-z` axis. -/
theorem hit_near_intersection_witness :
    (axisRay : Ray ℝ).direction ≠ Vec3.zero ∧ (0 : ℝ) ≤ (bigSphere : Sphere ℝ).radius ∧
    ((¬ ∃ t : ℝ, onSphere Real.sqrt bigSphere axisRay t) →
      (bigSphere : Sphere ℝ).hit Real.sqrt axisRay = -1) ∧
    ((∃ t : ℝ, onSphere Real.sqrt bigSphere axisRay t) →
      sqDist bigSphere axisRay ((bigSphere : Sphere ℝ).hit Real.sqrt axisRay) =
        (bigSphere : Sphere ℝ).radius * (bigSphere : Sphere ℝ).radius ∧
      onSphere Real.sqrt bigSphere axisRay ((bigSphere : Sphere ℝ).hit Real.sqrt axisRay) ∧
      ∀ t : ℝ, onSphere Real.sqrt bigSphere axisRay t →
        (bigSphere : Sphere ℝ).hit Real.sqrt axisRay ≤ t) :=
  ⟨axisRay_direction_ne, by norm_num [bigSphere],
    hit_near_intersection bigSphere axisRay axisRay_direction_ne (by norm_num [bigSphere])⟩

/-- C2 (amended): in exact real arithmetic, for every sphere with radius `> 0` and every ray whose direction is not
the zero vector, each component of `color ray sphere` lies in `[0, 1]`. -/
theorem color_in_unit_cube (s : Sphere ℝ) (ray : Ray ℝ) (hr : 0 < s.radius)
    (hd : ray.direction ≠ Vec3.zero) :
    (0 ≤ (color Real.sqrt ray s).x ∧ (color Real.sqrt ray s).x ≤ 1) ∧
    (0 ≤ (color Real.sqrt ray s).y ∧ (color Real.sqrt ray s).y ≤ 1) ∧
    (0 ≤ (color Real.sqrt ray s).z ∧ (color Real.sqrt ray s).z ≤ 1) :=
  color_inUnitCube_aux s ray hr hd

/-- Witness for `color_in_unit_cube`: the scene's sphere and the ray straight
down the `-z` axis. -/
theorem color_in_unit_cube_witness :
    (0 : ℝ) < (onload.sphere : Sphere ℝ).radius ∧ (axisRay : Ray ℝ).direction ≠ Vec3.zero ∧
    (0 ≤ (color Real.sqrt axisRay onload.sphere).x ∧
      (color Real.sqrt axisRay onload.sphere).x ≤ 1) ∧
    (0 ≤ (color Real.sqrt axisRay onload.sphere).y ∧
      (color Real.sqrt axisRay onload.sphere).y ≤ 1) ∧
    (0 ≤ (color Real.sqrt axisRay onload.sphere).z ∧
      (color Real.sqrt axisRay onload.sphere).z ≤ 1) :=
  ⟨by norm_num [onload.sphere], axisRay_direction_ne,
    color_in_unit_cube onload.sphere axisRay (by norm_num [onload.sphere])
      axisRay_direction_ne⟩

/-- C3 (amended): in exact real arithmetic, for every sphere and every ray with non-zero direction on which
`Sphere.hit` does not return a value `> 0`, `color ray sphere` equals
`white * (1 - s) + sky * s` with `s = 0.5 * (d.y / |d| + 1)`; `0 ≤ s ≤ 1`; and
any other missing ray, with any sphere and any origin, whose direction has the
same `y` and the same length gets the same colour. -/
theorem color_miss_gradient (s : Sphere ℝ) (ray : Ray ℝ)
    (hd : ray.direction ≠ Vec3.zero) (hmiss : ¬ s.hit Real.sqrt ray > 0) :
    color Real.sqrt ray s = gradient (blend Real.sqrt ray.direction) ∧
    (0 ≤ blend Real.sqrt ray.direction ∧ blend Real.sqrt ray.direction ≤ 1) ∧
    ∀ (s' : Sphere ℝ) (ray' : Ray ℝ), ray'.direction ≠ Vec3.zero →
      ¬ s'.hit Real.sqrt ray' > 0 →
      ray'.direction.y = ray.direction.y →
      ray'.direction.length Real.sqrt = ray.direction.length Real.sqrt →
      color Real.sqrt ray' s' = color Real.sqrt ray s := by
  refine ⟨color_miss s ray hmiss, blend_bounds ray.direction (hitA_pos ray hd), ?_⟩
  intro s' ray' _ hmiss' hy hlen
  rw [color_miss s ray hmiss, color_miss s' ray' hmiss']
  simp only [blend, hy, hlen]

/-- Witness for `color_miss_gradient`: the scene's sphere and the ray straight
up, which misses it. -/
theorem color_miss_gradient_witness :
    (upRay : Ray ℝ).direction ≠ Vec3.zero ∧
    ¬ (onload.sphere : Sphere ℝ).hit Real.sqrt upRay > 0 ∧
    color Real.sqrt upRay onload.sphere = gradient (blend Real.sqrt (upRay : Ray ℝ).direction) ∧
    (0 ≤ blend Real.sqrt (upRay : Ray ℝ).direction ∧
      blend Real.sqrt (upRay : Ray ℝ).direction ≤ 1) ∧
    ∀ (s' : Sphere ℝ) (ray' : Ray ℝ), ray'.direction ≠ Vec3.zero →
      ¬ s'.hit Real.sqrt ray' > 0 →
      ray'.direction.y = (upRay : Ray ℝ).direction.y →
      ray'.direction.length Real.sqrt = (upRay : Ray ℝ).direction.length Real.sqrt →
      color Real.sqrt ray' s' = color Real.sqrt upRay onload.sphere :=
  ⟨upRay_direction_ne, by rw [hit_upRay]; norm_num,
    color_miss_gradient onload.sphere upRay upRay_direction_ne (by rw [hit_upRay]; norm_num)⟩

/-- For the sphere with center `(0,0,3)` and radius `1`
and the ray from the origin with direction `(0,0,-4)`, `hit` returns `-1`
although the line meets the sphere (at `t = -1`, the near root, and at
`t = -1/2`). -/
theorem hit_minus_one_counterexample :
    (⟨⟨0, 0, 0⟩, ⟨0, 0, -4⟩⟩ : Ray ℝ).direction ≠ Vec3.zero ∧
    Sphere.hit Real.sqrt ⟨⟨0, 0, 3⟩, 1⟩ ⟨⟨0, 0, 0⟩, ⟨0, 0, -4⟩⟩ = -1 ∧
    ∃ t : ℝ, onSphere Real.sqrt ⟨⟨0, 0, 3⟩, 1⟩ ⟨⟨0, 0, 0⟩, ⟨0, 0, -4⟩⟩ t := by
  refine ⟨?_, ?_, -1, ?_⟩
  · intro h
    have := congrArg Vec3.z h
    simp [Vec3.zero] at this
  · simp only [Sphere.hit, Vec3.sub, Vec3.dot]
    norm_num
    rw [show (64 : ℝ) = 8 ^ 2 by norm_num, Real.sqrt_sq (by norm_num)]
    norm_num
  · simp only [onSphere, distAt, Vec3.length, Ray.pointAtParameter, Vec3.add, Vec3.mul,
      Vec3.sub, Vec3.dot]
    norm_num

/-- C7 (amended): in exact real arithmetic, for every sphere with radius `≥ 0` and every ray with
non-zero direction, `hit` returns `-1` if and only if either no real `t` puts
`pointAtParameter t` at distance `radius` from the center, or the nearest such
`t` is `-1` itself. -/
theorem hit_minus_one_iff (s : Sphere ℝ) (ray : Ray ℝ)
    (hd : ray.direction ≠ Vec3.zero) (hr : 0 ≤ s.radius) :
    s.hit Real.sqrt ray = -1 ↔
      (¬ ∃ t : ℝ, onSphere Real.sqrt s ray t) ∨
      (onSphere Real.sqrt s ray (-1) ∧ ∀ t : ℝ, onSphere Real.sqrt s ray t → -1 ≤ t) := by
  have ha := hitA_pos ray hd
  have hex : (∃ t : ℝ, onSphere Real.sqrt s ray t) ↔ 0 ≤ hitDisc s ray := by
    rw [← exists_root_iff s ray ha]
    exact exists_congr fun t => onSphere_iff s ray t hr
  constructor
  · intro h
    by_cases hD : 0 ≤ hitDisc s ray
    · right
      rw [hit_of_disc_nonneg s ray hD] at h
      constructor
      · rw [← h]
        exact (onSphere_iff s ray _ hr).mpr (nearRoot_on s ray ha hD)
      · intro t ht
        rw [← h]
        exact nearRoot_le s ray ha hD t ((onSphere_iff s ray t hr).mp ht)
    · left
      rwa [hex]
  · rintro (hno | ⟨hon, hmin⟩)
    · rw [hex, not_le] at hno
      exact hit_of_disc_neg s ray hno
    · have hD : 0 ≤ hitDisc s ray := hex.mp ⟨-1, hon⟩
      rw [hit_of_disc_nonneg s ray hD]
      apply le_antisymm
      · exact nearRoot_le s ray ha hD (-1) ((onSphere_iff s ray _ hr).mp hon)
      · exact hmin _ ((onSphere_iff s ray _ hr).mpr (nearRoot_on s ray ha hD))

/-- Witness for `hit_minus_one_iff`: the scene's sphere and the ray straight
up, which misses it. -/
theorem hit_minus_one_iff_witness :
    (upRay : Ray ℝ).direction ≠ Vec3.zero ∧ (0 : ℝ) ≤ (onload.sphere : Sphere ℝ).radius ∧
    ((onload.sphere : Sphere ℝ).hit Real.sqrt upRay = -1 ↔
      (¬ ∃ t : ℝ, onSphere Real.sqrt onload.sphere upRay t) ∨
      (onSphere Real.sqrt onload.sphere upRay (-1) ∧
        ∀ t : ℝ, onSphere Real.sqrt onload.sphere upRay t → -1 ≤ t)) :=
  ⟨upRay_direction_ne, by norm_num [onload.sphere],
    hit_minus_one_iff onload.sphere upRay upRay_direction_ne (by norm_num [onload.sphere])⟩

/-- C8 (amended): in exact real arithmetic, for every sphere and every ray with non-zero direction whose origin is
at distance `radius` from the center and whose direction points away from the
center, `Sphere.hit` returns a value `≤ 0`, and `color` returns the
white-to-sky gradient colour. -/
theorem hit_grazing_nonpos (s : Sphere ℝ) (ray : Ray ℝ)
    (hd : ray.direction ≠ Vec3.zero)
    (hon : (ray.origin.sub s.center).length Real.sqrt = s.radius)
    (haway : 0 ≤ (ray.origin.sub s.center).dot ray.direction) :
    s.hit Real.sqrt ray ≤ 0 ∧
    color Real.sqrt ray s = gradient (blend Real.sqrt ray.direction) := by
  have ha := hitA_pos ray hd
  have hnn : 0 ≤ (ray.origin.sub s.center).dot (ray.origin.sub s.center) := by
    simp only [Vec3.dot]
    nlinarith [mul_self_nonneg (ray.origin.sub s.center).x,
      mul_self_nonneg (ray.origin.sub s.center).y, mul_self_nonneg (ray.origin.sub s.center).z]
  have hc : hitC s ray = 0 := by
    simp only [hitC]
    rw [← hon]
    simp only [Vec3.length]
    rw [Real.mul_self_sqrt hnn, sub_self]
  have hb : 0 ≤ hitB s ray := by
    simp only [hitB]
    linarith
  have hDeq : hitDisc s ray = hitB s ray ^ 2 := by
    simp only [hitDisc, hc]
    ring
  have hD : 0 ≤ hitDisc s ray := by rw [hDeq]; positivity
  have hle : s.hit Real.sqrt ray ≤ 0 := by
    rw [hit_of_disc_nonneg s ray hD]
    simp only [nearRoot]
    rw [hDeq, Real.sqrt_sq hb]
    apply div_nonpos_of_nonpos_of_nonneg
    · linarith
    · linarith
  exact ⟨hle, color_miss s ray (not_lt.mpr hle)⟩

/-- Witness for `hit_grazing_nonpos`: the ray leaving the sphere of radius `1`
through the camera origin, straight up from the camera origin (tangent to the
sphere). -/
theorem hit_grazing_nonpos_witness :
    (upRay : Ray ℝ).direction ≠ Vec3.zero ∧
    ((upRay : Ray ℝ).origin.sub (bigSphere : Sphere ℝ).center).length Real.sqrt =
      (bigSphere : Sphere ℝ).radius ∧
    0 ≤ ((upRay : Ray ℝ).origin.sub (bigSphere : Sphere ℝ).center).dot
      (upRay : Ray ℝ).direction ∧
    (bigSphere : Sphere ℝ).hit Real.sqrt upRay ≤ 0 ∧
    color Real.sqrt upRay bigSphere = gradient (blend Real.sqrt (upRay : Ray ℝ).direction) :=
  ⟨upRay_direction_ne,
    by simp [upRay, bigSphere, Vec3.sub, Vec3.length, Vec3.dot],
    by simp [upRay, bigSphere, Vec3.sub, Vec3.dot],
    hit_grazing_nonpos bigSphere upRay upRay_direction_ne
      (by simp [upRay, bigSphere, Vec3.sub, Vec3.length, Vec3.dot])
      (by simp [upRay, bigSphere, Vec3.sub, Vec3.dot])⟩

/-- C9: `Sphere((0,0,-1), 0.5).hit(Ray((0,0,0), (0,0,-1)))` returns exactly
`0.5`. -/
theorem hit_axis_ray :
    Sphere.hit Real.sqrt ⟨⟨0, 0, -1⟩, 0.5⟩ ⟨⟨0, 0, 0⟩, ⟨0, 0, -1⟩⟩ = (0.5 : ℝ) := by
  simp only [Sphere.hit, Vec3.sub, Vec3.dot]
  norm_num

/-- C10 (amended): in exact real arithmetic, for every vector `v` other than the
zero vector, `v.normalize()` has length exactly `1` and equals `v` scaled by the
positive factor `1 / length v`; and, in exact real arithmetic and on doubles
alike, `(3,4,0).normalize() = (0.6, 0.8, 0)` with `length (3,4,0) = 5`. -/
theorem normalize_unit (v : Vec3 ℝ) (hv : v ≠ Vec3.zero) :
    (v.normalize Real.sqrt).length Real.sqrt = 1 ∧
    v.normalize Real.sqrt = v.mul (1 / v.length Real.sqrt) ∧
    0 < 1 / v.length Real.sqrt ∧
    (⟨3, 4, 0⟩ : Vec3 ℝ).normalize Real.sqrt = ⟨0.6, 0.8, 0⟩ ∧
    (⟨3, 4, 0⟩ : Vec3 ℝ).length Real.sqrt = 5 ∧
    (⟨3, 4, 0⟩ : Vec3 Double).normalize Double.sqrt = ⟨0.6, 0.8, 0⟩ ∧
    (⟨3, 4, 0⟩ : Vec3 Double).length Double.sqrt = 5 := by
  have hpos : 0 < v.dot v := hitA_pos ⟨v, v⟩ hv
  have hL : 0 < Real.sqrt (v.dot v) := Real.sqrt_pos.mpr hpos
  have hLL : Real.sqrt (v.dot v) * Real.sqrt (v.dot v) = v.dot v := Real.mul_self_sqrt hpos.le
  have h5 : Real.sqrt ((⟨3, 4, 0⟩ : Vec3 ℝ).dot ⟨3, 4, 0⟩) = 5 := by
    simp only [Vec3.dot]
    rw [show (3 : ℝ) * 3 + 4 * 4 + 0 * 0 = 5 ^ 2 by norm_num, Real.sqrt_sq (by norm_num)]
  refine ⟨?_, ?_, ?_, ?_, ?_, normalize_3_4_0_double⟩
  · simp only [Vec3.normalize, Vec3.length, Vec3.div]
    have : (Vec3.dot ⟨v.x / Real.sqrt (v.dot v), v.y / Real.sqrt (v.dot v),
        v.z / Real.sqrt (v.dot v)⟩ ⟨v.x / Real.sqrt (v.dot v), v.y / Real.sqrt (v.dot v),
        v.z / Real.sqrt (v.dot v)⟩ : ℝ) = 1 := by
      simp only [Vec3.dot] at hLL hL ⊢
      generalize Real.sqrt (v.x * v.x + v.y * v.y + v.z * v.z) = L at hLL hL
      field_simp
      linarith
    rw [this, Real.sqrt_one]
  · simp only [Vec3.normalize, Vec3.length, Vec3.div, Vec3.mul]
    ext <;> simp [div_eq_mul_inv]
  · simp only [Vec3.length]
    positivity
  · simp only [Vec3.normalize, Vec3.length, Vec3.div, h5]
    ext <;> norm_num
  · simp only [Vec3.length, h5]

/-- Witness for `normalize_unit` at `v = (3, 4, 0)`. -/
theorem normalize_unit_witness :
    (⟨3, 4, 0⟩ : Vec3 ℝ) ≠ Vec3.zero ∧
    ((⟨3, 4, 0⟩ : Vec3 ℝ).normalize Real.sqrt).length Real.sqrt = 1 ∧
    (⟨3, 4, 0⟩ : Vec3 ℝ).normalize Real.sqrt =
      (⟨3, 4, 0⟩ : Vec3 ℝ).mul (1 / (⟨3, 4, 0⟩ : Vec3 ℝ).length Real.sqrt) ∧
    0 < 1 / (⟨3, 4, 0⟩ : Vec3 ℝ).length Real.sqrt ∧
    (⟨3, 4, 0⟩ : Vec3 ℝ).normalize Real.sqrt = ⟨0.6, 0.8, 0⟩ ∧
    (⟨3, 4, 0⟩ : Vec3 ℝ).length Real.sqrt = 5 ∧
    (⟨3, 4, 0⟩ : Vec3 Double).normalize Double.sqrt = ⟨0.6, 0.8, 0⟩ ∧
    (⟨3, 4, 0⟩ : Vec3 Double).length Double.sqrt = 5 :=
  ⟨fun h => by have := congrArg Vec3.x h; simp [Vec3.zero] at this,
    normalize_unit ⟨3, 4, 0⟩
      (fun h => by have := congrArg Vec3.x h; simp [Vec3.zero] at this)⟩

end Claims

/-! ## The render loop -/

section RenderClaims

/-- C4: for `width ≥ 2`, `height ≥ 2`, a buffer of `width * height * 4` bytes,
every column `i < width` and image row `r < height`, after the render loop the
four bytes at offset `(r * width + i) * 4` are `⌊255.99 * c.x⌋`,
`⌊255.99 * c.y⌋`, `⌊255.99 * c.z⌋` and `255`, where `c` is the colour of the
camera ray for column `i` and world row `height - 1 - r`; and the ray of image
row `0` points at the top of the viewport (`direction.y = 1`, i.e. `v = 1`). -/
theorem render_writes_flipped_row (width height : Nat) (hw : 2 ≤ width) (hh : 2 ≤ height)
    (pixels : Array Nat) (hsize : pixels.size = width * height * 4)
    (i r : Nat) (hi : i < width) (hr : r < height) :
    ((onload.render Real.sqrt width height pixels)[(r * width + i) * 4 + 0]?).map Int.ofNat =
      some ⌊255.99 *
        (color Real.sqrt (onload.ray width height (height - 1 - r) i) onload.sphere).x⌋ ∧
    ((onload.render Real.sqrt width height pixels)[(r * width + i) * 4 + 1]?).map Int.ofNat =
      some ⌊255.99 *
        (color Real.sqrt (onload.ray width height (height - 1 - r) i) onload.sphere).y⌋ ∧
    ((onload.render Real.sqrt width height pixels)[(r * width + i) * 4 + 2]?).map Int.ofNat =
      some ⌊255.99 *
        (color Real.sqrt (onload.ray width height (height - 1 - r) i) onload.sphere).z⌋ ∧
    ((onload.render Real.sqrt width height pixels)[(r * width + i) * 4 + 3]?).map Int.ofNat =
      some 255 ∧
    (onload.ray width height (height - 1 - 0) i : Ray ℝ).direction.y = 1 := by
  have hj : height - 1 - r < height := by omega
  have hflip := pixelIndex_flip width height r i hr
  have key := render_getElem? width height pixels hsize (height - 1 - r) i hj hi
  have hw1 : (1 : ℝ) < (width : ℝ) := by exact_mod_cast hw
  refine ⟨?_, ?_, ?_, ?_, ?_⟩
  · have := key (onload.pixelIndex width height (height - 1 - r) i + 0, _)
      (by simp only [onload.pixelStores]; exact List.mem_cons_self _ _)
    rwa [hflip] at this
  · have := key (onload.pixelIndex width height (height - 1 - r) i + 1, _)
      (by simp only [onload.pixelStores]
          exact List.mem_cons_of_mem _ (List.mem_cons_self _ _))
    rwa [hflip] at this
  · have := key (onload.pixelIndex width height (height - 1 - r) i + 2, _)
      (by simp only [onload.pixelStores]
          exact List.mem_cons_of_mem _ (List.mem_cons_of_mem _ (List.mem_cons_self _ _)))
    rwa [hflip] at this
  · have := key (onload.pixelIndex width height (height - 1 - r) i + 3, 255)
      (by simp [onload.pixelStores])
    rwa [hflip] at this
  · rw [ray_direction]
    have h1 : ((height - 1 - 0 : ℕ) : ℝ) = (height : ℝ) - 1 := by
      rw [Nat.sub_zero, Nat.cast_sub (by omega)]
      simp
    have h2 : (height : ℝ) - 1 ≠ 0 := by
      have : (2 : ℝ) ≤ (height : ℝ) := by exact_mod_cast hh
      linarith
    show -1 + 2 * (((height - 1 - 0 : ℕ) : ℝ) / ((height : ℝ) - 1)) = 1
    rw [h1, div_self h2]
    norm_num

/-- Witness for `render_writes_flipped_row`: a blank `2 × 2` canvas, column `0`
of image row `0`. -/
theorem render_writes_flipped_row_witness :
    2 ≤ 2 ∧ (blankBuffer 16).size = 2 * 2 * 4 ∧ 0 < 2 ∧
    ((onload.render Real.sqrt 2 2 (blankBuffer 16))[(0 * 2 + 0) * 4 + 0]?).map Int.ofNat =
      some ⌊255.99 * (color Real.sqrt (onload.ray 2 2 (2 - 1 - 0) 0) onload.sphere).x⌋ ∧
    ((onload.render Real.sqrt 2 2 (blankBuffer 16))[(0 * 2 + 0) * 4 + 1]?).map Int.ofNat =
      some ⌊255.99 * (color Real.sqrt (onload.ray 2 2 (2 - 1 - 0) 0) onload.sphere).y⌋ ∧
    ((onload.render Real.sqrt 2 2 (blankBuffer 16))[(0 * 2 + 0) * 4 + 2]?).map Int.ofNat =
      some ⌊255.99 * (color Real.sqrt (onload.ray 2 2 (2 - 1 - 0) 0) onload.sphere).z⌋ ∧
    ((onload.render Real.sqrt 2 2 (blankBuffer 16))[(0 * 2 + 0) * 4 + 3]?).map Int.ofNat =
      some 255 ∧
    (onload.ray 2 2 (2 - 1 - 0) 0 : Ray ℝ).direction.y = 1 :=
  ⟨le_refl 2, by simp [blankBuffer], by decide,
    render_writes_flipped_row 2 2 (le_refl 2) (le_refl 2) (blankBuffer 16)
      (by simp [blankBuffer]) 0 0 (by decide) (by decide)⟩

/-- C5: for `width ≥ 1` and `height ≥ 1`, the map
`(i, j) ↦ ((height - 1 - j) * width + i) * 4` of the render loop sends
`[0, width) × [0, height)` into the multiples of `4` below `4 * width * height`,
is injective there, and reaches every such multiple; and the byte indices
written by the whole loop contain every index below `4 * width * height`
exactly once and no other index. -/
theorem pixelIndex_bijection (width height : Nat) (hw : 1 ≤ width) (hh : 1 ≤ height) :
    (∀ i j, i < width → j < height →
      ∃ m, m < width * height ∧ onload.pixelIndex width height j i = 4 * m) ∧
    (∀ i j i' j', i < width → j < height → i' < width → j' < height →
      onload.pixelIndex width height j i = onload.pixelIndex width height j' i' →
      i = i' ∧ j = j') ∧
    (∀ m, m < width * height →
      ∃ i j, i < width ∧ j < height ∧ onload.pixelIndex width height j i = 4 * m) ∧
    (∀ k, k < 4 * width * height →
      List.count k (onload.writtenIndices Real.sqrt width height) = 1) ∧
    (∀ k, k ∈ onload.writtenIndices Real.sqrt width height → k < 4 * width * height) := by
  have hN : width * height * 4 = 4 * width * height := by ring
  refine ⟨?_, ?_, pixelIndex_surj width height, ?_, ?_⟩
  · intro i j hi hj
    refine ⟨(height - 1 - j) * width + i, ?_, ?_⟩
    · have h1 : (height - 1 - j + 1) * width ≤ height * width :=
        Nat.mul_le_mul_right width (by omega)
      rw [Nat.succ_mul] at h1
      rw [Nat.mul_comm width height]
      omega
    · simp only [onload.pixelIndex]
      omega
  · intro i j i' j' hi hj hi' hj' h
    exact pixelIndex_inj width height i j i' j' hi hj hi' hj' h
  · intro k hk
    rw [writtenIndices_eq, hN]
    exact List.count_eq_one_of_mem (List.nodup_range _) (List.mem_range.mpr hk)
  · intro k hk
    rw [writtenIndices_eq, hN, List.mem_range] at hk
    exact hk

/-- Witness for `pixelIndex_bijection` on a `3 × 2` frame. -/
theorem pixelIndex_bijection_witness :
    1 ≤ 3 ∧ 1 ≤ 2 ∧
    (∀ i j, i < 3 → j < 2 → ∃ m, m < 3 * 2 ∧ onload.pixelIndex 3 2 j i = 4 * m) ∧
    (∀ i j i' j', i < 3 → j < 2 → i' < 3 → j' < 2 →
      onload.pixelIndex 3 2 j i = onload.pixelIndex 3 2 j' i' → i = i' ∧ j = j') ∧
    (∀ m, m < 3 * 2 → ∃ i j, i < 3 ∧ j < 2 ∧ onload.pixelIndex 3 2 j i = 4 * m) ∧
    (∀ k, k < 4 * 3 * 2 → List.count k (onload.writtenIndices Real.sqrt 3 2) = 1) ∧
    (∀ k, k ∈ onload.writtenIndices Real.sqrt 3 2 → k < 4 * 3 * 2) :=
  ⟨by decide, by decide, pixelIndex_bijection 3 2 (by decide) (by decide)⟩

/-- C6: for `width ≥ 2`, `height ≥ 2` and the fixed scene, for every pixel the
values `⌊255.99 * col.x⌋`, `⌊255.99 * col.y⌋`, `⌊255.99 * col.z⌋` computed by
the render loop are integers in `[0, 255]`, the four values stored are these
three and `255`, and the clamping of the buffer changes none of them. -/
theorem render_bytes_valid (width height : Nat) (hw : 2 ≤ width) (hh : 2 ≤ height)
    (i j : Nat) (hi : i < width) (hj : j < height) :
    (0 ≤ ⌊255.99 * (color Real.sqrt (onload.ray width height j i) onload.sphere).x⌋ ∧
      ⌊255.99 * (color Real.sqrt (onload.ray width height j i) onload.sphere).x⌋ ≤ 255) ∧
    (0 ≤ ⌊255.99 * (color Real.sqrt (onload.ray width height j i) onload.sphere).y⌋ ∧
      ⌊255.99 * (color Real.sqrt (onload.ray width height j i) onload.sphere).y⌋ ≤ 255) ∧
    (0 ≤ ⌊255.99 * (color Real.sqrt (onload.ray width height j i) onload.sphere).z⌋ ∧
      ⌊255.99 * (color Real.sqrt (onload.ray width height j i) onload.sphere).z⌋ ≤ 255) ∧
    (onload.pixelStores Real.sqrt width height j i).map Prod.snd =
      [⌊255.99 * (color Real.sqrt (onload.ray width height j i) onload.sphere).x⌋,
       ⌊255.99 * (color Real.sqrt (onload.ray width height j i) onload.sphere).y⌋,
       ⌊255.99 * (color Real.sqrt (onload.ray width height j i) onload.sphere).z⌋,
       255] ∧
    (∀ w ∈ onload.pixelStores Real.sqrt width height j i,
      (toUint8Clamped w.2 : Int) = w.2) := by
  obtain ⟨⟨x0, x1⟩, ⟨y0, y1⟩, z0, z1⟩ := scene_color_inUnitCube width height j i
  refine ⟨floor_byte _ x0 x1, floor_byte _ y0 y1, floor_byte _ z0 z1, ?_, ?_⟩
  · simp [onload.pixelStores]
  · intro w hmem
    exact toUint8Clamped_of_byte w.2 (pixelStores_byte width height j i w hmem).1
      (pixelStores_byte width height j i w hmem).2

/-- Witness for `render_bytes_valid`: pixel `(0, 0)` of a `2 × 2` frame. -/
theorem render_bytes_valid_witness :
    2 ≤ 2 ∧ 0 < 2 ∧
    (0 ≤ ⌊255.99 * (color Real.sqrt (onload.ray 2 2 0 0) onload.sphere).x⌋ ∧
      ⌊255.99 * (color Real.sqrt (onload.ray 2 2 0 0) onload.sphere).x⌋ ≤ 255) ∧
    (0 ≤ ⌊255.99 * (color Real.sqrt (onload.ray 2 2 0 0) onload.sphere).y⌋ ∧
      ⌊255.99 * (color Real.sqrt (onload.ray 2 2 0 0) onload.sphere).y⌋ ≤ 255) ∧
    (0 ≤ ⌊255.99 * (color Real.sqrt (onload.ray 2 2 0 0) onload.sphere).z⌋ ∧
      ⌊255.99 * (color Real.sqrt (onload.ray 2 2 0 0) onload.sphere).z⌋ ≤ 255) ∧
    (onload.pixelStores Real.sqrt 2 2 0 0).map Prod.snd =
      [⌊255.99 * (color Real.sqrt (onload.ray 2 2 0 0) onload.sphere).x⌋,
       ⌊255.99 * (color Real.sqrt (onload.ray 2 2 0 0) onload.sphere).y⌋,
       ⌊255.99 * (color Real.sqrt (onload.ray 2 2 0 0) onload.sphere).z⌋,
       255] ∧
    (∀ w ∈ onload.pixelStores Real.sqrt 2 2 0 0, (toUint8Clamped w.2 : Int) = w.2) :=
  ⟨le_refl 2, by decide,
    render_bytes_valid 2 2 (le_refl 2) (le_refl 2) 0 0 (by decide) (by decide)⟩

end RenderClaims

/-! ## Rays, the camera and rays from inside the sphere -/

section RayClaims

/-- C11: for every origin `o`, direction `d` and real `t ≠ 0`,
`Ray(o, d).pointAtParameter(t).sub(o).div(t)` equals `d`; and
`pointAtParameter(0)` equals `o`. -/
theorem pointAtParameter_roundtrip (o d : Vec3 ℝ) (t : ℝ) (ht : t ≠ 0) :
    (((⟨o, d⟩ : Ray ℝ).pointAtParameter t).sub o).div t = d ∧
    (⟨o, d⟩ : Ray ℝ).pointAtParameter 0 = o := by
  constructor
  · simp only [Ray.pointAtParameter, Vec3.add, Vec3.sub, Vec3.mul, Vec3.div]
    ext <;> field_simp
  · simp only [Ray.pointAtParameter, Vec3.add, Vec3.mul]
    ext <;> simp

/-- Witness for `pointAtParameter_roundtrip`: origin `(1, 2, 3)`, direction
`(3, 4, 0)`, parameter `2`. -/
theorem pointAtParameter_roundtrip_witness :
    (2 : ℝ) ≠ 0 ∧
    (((⟨⟨1, 2, 3⟩, ⟨3, 4, 0⟩⟩ : Ray ℝ).pointAtParameter 2).sub ⟨1, 2, 3⟩).div 2 = ⟨3, 4, 0⟩ ∧
    (⟨⟨1, 2, 3⟩, ⟨3, 4, 0⟩⟩ : Ray ℝ).pointAtParameter 0 = ⟨1, 2, 3⟩ :=
  ⟨two_ne_zero, pointAtParameter_roundtrip ⟨1, 2, 3⟩ ⟨3, 4, 0⟩ 2 two_ne_zero⟩

/-- C13: for `width ≥ 2`, `height ≥ 2`, column `i < width` and row
`j < height`, the ray of the render loop has origin `(0,0,0)` and direction
`(-2 + 4u, -1 + 2v, -1)` with `u = i / (width - 1)` and `v = j / (height - 1)`,
where `0 ≤ u ≤ 1` and `0 ≤ v ≤ 1`; so `direction.x ∈ [-2, 2]` and
`direction.y ∈ [-1, 1]`, pixel `(0, 0)` maps to `(-2, -1, -1)` and pixel
`(width - 1, height - 1)` maps to `(2, 1, -1)`. -/
theorem camera_mapping (width height : Nat) (hw : 2 ≤ width) (hh : 2 ≤ height)
    (i j : Nat) (hi : i < width) (hj : j < height) :
    (onload.ray width height j i : Ray ℝ).origin = ⟨0, 0, 0⟩ ∧
    (onload.ray width height j i : Ray ℝ).direction =
      ⟨-2 + 4 * ((i : ℝ) / ((width : ℝ) - 1)), -1 + 2 * ((j : ℝ) / ((height : ℝ) - 1)), -1⟩ ∧
    (0 ≤ (i : ℝ) / ((width : ℝ) - 1) ∧ (i : ℝ) / ((width : ℝ) - 1) ≤ 1) ∧
    (0 ≤ (j : ℝ) / ((height : ℝ) - 1) ∧ (j : ℝ) / ((height : ℝ) - 1) ≤ 1) ∧
    (-2 ≤ (onload.ray width height j i : Ray ℝ).direction.x ∧
      (onload.ray width height j i : Ray ℝ).direction.x ≤ 2) ∧
    (-1 ≤ (onload.ray width height j i : Ray ℝ).direction.y ∧
      (onload.ray width height j i : Ray ℝ).direction.y ≤ 1) ∧
    (onload.ray width height 0 0 : Ray ℝ).direction = ⟨-2, -1, -1⟩ ∧
    (onload.ray width height (height - 1) (width - 1) : Ray ℝ).direction = ⟨2, 1, -1⟩ := by
  have hw2 : (2 : ℝ) ≤ (width : ℝ) := by exact_mod_cast hw
  have hh2 : (2 : ℝ) ≤ (height : ℝ) := by exact_mod_cast hh
  have hwpos : (0 : ℝ) < (width : ℝ) - 1 := by linarith
  have hhpos : (0 : ℝ) < (height : ℝ) - 1 := by linarith
  have hi1 : (i : ℝ) + 1 ≤ (width : ℝ) := by exact_mod_cast hi
  have hj1 : (j : ℝ) + 1 ≤ (height : ℝ) := by exact_mod_cast hj
  have hi0 : (0 : ℝ) ≤ (i : ℝ) := Nat.cast_nonneg i
  have hj0 : (0 : ℝ) ≤ (j : ℝ) := Nat.cast_nonneg j
  have hu0 : 0 ≤ (i : ℝ) / ((width : ℝ) - 1) := div_nonneg hi0 hwpos.le
  have hu1 : (i : ℝ) / ((width : ℝ) - 1) ≤ 1 := by
    rw [div_le_one hwpos]; linarith
  have hv0 : 0 ≤ (j : ℝ) / ((height : ℝ) - 1) := div_nonneg hj0 hhpos.le
  have hv1 : (j : ℝ) / ((height : ℝ) - 1) ≤ 1 := by
    rw [div_le_one hhpos]; linarith
  have hwc : ((width - 1 : ℕ) : ℝ) = (width : ℝ) - 1 := by
    rw [Nat.cast_sub (by omega)]; simp
  have hhc : ((height - 1 : ℕ) : ℝ) = (height : ℝ) - 1 := by
    rw [Nat.cast_sub (by omega)]; simp
  refine ⟨ray_origin width height j i, ray_direction width height j i, ⟨hu0, hu1⟩,
    ⟨hv0, hv1⟩, ?_, ?_, ?_, ?_⟩
  · rw [ray_direction]
    constructor <;> simp only <;> linarith
  · rw [ray_direction]
    constructor <;> simp only <;> linarith
  · rw [ray_direction]
    ext <;> simp
  · rw [ray_direction, hwc, hhc, div_self hwpos.ne', div_self hhpos.ne']
    ext <;> norm_num

/-- Witness for `camera_mapping`: pixel `(1, 0)` of a `3 × 2` frame. -/
theorem camera_mapping_witness :
    2 ≤ 3 ∧ 2 ≤ 2 ∧ 1 < 3 ∧ 0 < 2 ∧
    (onload.ray 3 2 0 1 : Ray ℝ).origin = ⟨0, 0, 0⟩ ∧
    (onload.ray 3 2 0 1 : Ray ℝ).direction =
      ⟨-2 + 4 * (((1 : ℕ) : ℝ) / (((3 : ℕ) : ℝ) - 1)),
        -1 + 2 * (((0 : ℕ) : ℝ) / (((2 : ℕ) : ℝ) - 1)), -1⟩ ∧
    (0 ≤ ((1 : ℕ) : ℝ) / (((3 : ℕ) : ℝ) - 1) ∧ ((1 : ℕ) : ℝ) / (((3 : ℕ) : ℝ) - 1) ≤ 1) ∧
    (0 ≤ ((0 : ℕ) : ℝ) / (((2 : ℕ) : ℝ) - 1) ∧ ((0 : ℕ) : ℝ) / (((2 : ℕ) : ℝ) - 1) ≤ 1) ∧
    (-2 ≤ (onload.ray 3 2 0 1 : Ray ℝ).direction.x ∧
      (onload.ray 3 2 0 1 : Ray ℝ).direction.x ≤ 2) ∧
    (-1 ≤ (onload.ray 3 2 0 1 : Ray ℝ).direction.y ∧
      (onload.ray 3 2 0 1 : Ray ℝ).direction.y ≤ 1) ∧
    (onload.ray 3 2 0 0 : Ray ℝ).direction = ⟨-2, -1, -1⟩ ∧
    (onload.ray 3 2 (2 - 1) (3 - 1) : Ray ℝ).direction = ⟨2, 1, -1⟩ :=
  ⟨by decide, by decide, by decide, by decide,
    camera_mapping 3 2 (by decide) (by decide) 1 0 (by decide) (by decide)⟩

/-- C16 (amended): in exact real arithmetic, for `width ≥ 2`, `height ≥ 2` and
every pixel `(i, j)` of the fixed scene, no divisor is zero: `width - 1` and `height - 1` are not zero, the ray
direction has `z = -1`, so `a = dot(direction, direction) ≥ 1` and the divisor
`2a` of `Sphere.hit` is not zero, the length that `normalize` divides by in the
background branch is `≥ 1`, and in the hit branch the vector
`hitPoint - center` that is normalized has length exactly `0.5`. -/
theorem render_divisors_nonzero (width height : Nat) (hw : 2 ≤ width) (hh : 2 ≤ height)
    (i j : Nat) (hi : i < width) (hj : j < height) :
    (width : ℝ) - 1 ≠ 0 ∧ (height : ℝ) - 1 ≠ 0 ∧
    (onload.ray width height j i : Ray ℝ).direction.z = -1 ∧
    1 ≤ hitA (onload.ray width height j i : Ray ℝ) ∧
    2 * hitA (onload.ray width height j i : Ray ℝ) ≠ 0 ∧
    1 ≤ (onload.ray width height j i : Ray ℝ).direction.length Real.sqrt ∧
    ((onload.sphere : Sphere ℝ).hit Real.sqrt (onload.ray width height j i) > 0 →
      (((onload.ray width height j i : Ray ℝ).pointAtParameter
        ((onload.sphere : Sphere ℝ).hit Real.sqrt (onload.ray width height j i))).sub
          (onload.sphere : Sphere ℝ).center).length Real.sqrt = 0.5) := by
  have hw2 : (2 : ℝ) ≤ (width : ℝ) := by exact_mod_cast hw
  have hh2 : (2 : ℝ) ≤ (height : ℝ) := by exact_mod_cast hh
  have ha := scene_hitA width height j i
  refine ⟨by linarith, by linarith, ?_, ha, by linarith, ?_, ?_⟩
  · rw [ray_direction]
  · simp only [Vec3.length]
    rw [Real.one_le_sqrt]
    exact ha
  · intro hpos
    have hon := scene_hit_on width height j i hpos
    simp only [sqDist] at hon
    simp only [Vec3.length]
    rw [hon, show (1 / 4 : ℝ) = 0.5 ^ 2 by norm_num, Real.sqrt_sq (by norm_num)]

/-- Witness for `render_divisors_nonzero`: pixel `(1, 0)` of a `3 × 2` frame. -/
theorem render_divisors_nonzero_witness :
    2 ≤ 3 ∧ 2 ≤ 2 ∧ 1 < 3 ∧ 0 < 2 ∧
    ((3 : ℕ) : ℝ) - 1 ≠ 0 ∧ ((2 : ℕ) : ℝ) - 1 ≠ 0 ∧
    (onload.ray 3 2 0 1 : Ray ℝ).direction.z = -1 ∧
    1 ≤ hitA (onload.ray 3 2 0 1 : Ray ℝ) ∧
    2 * hitA (onload.ray 3 2 0 1 : Ray ℝ) ≠ 0 ∧
    1 ≤ (onload.ray 3 2 0 1 : Ray ℝ).direction.length Real.sqrt ∧
    ((onload.sphere : Sphere ℝ).hit Real.sqrt (onload.ray 3 2 0 1) > 0 →
      (((onload.ray 3 2 0 1 : Ray ℝ).pointAtParameter
        ((onload.sphere : Sphere ℝ).hit Real.sqrt (onload.ray 3 2 0 1))).sub
          (onload.sphere : Sphere ℝ).center).length Real.sqrt = 0.5) :=
  ⟨by decide, by decide, by decide, by decide,
    render_divisors_nonzero 3 2 (by decide) (by decide) 1 0 (by decide) (by decide)⟩

/-- C17 (amended): in exact real arithmetic, for every sphere and every ray with
non-zero direction whose origin is at distance `< radius` from the center, the discriminant is positive and
`Sphere.hit` returns a strictly negative value, although the ray meets the
sphere at a positive parameter; and `color` returns the background gradient. -/
theorem hit_from_inside (s : Sphere ℝ) (ray : Ray ℝ)
    (hd : ray.direction ≠ Vec3.zero)
    (hin : (ray.origin.sub s.center).length Real.sqrt < s.radius) :
    0 < hitDisc s ray ∧
    s.hit Real.sqrt ray < 0 ∧
    (∃ t : ℝ, 0 < t ∧ onSphere Real.sqrt s ray t) ∧
    color Real.sqrt ray s = gradient (blend Real.sqrt ray.direction) := by
  have ha := hitA_pos ray hd
  have hr : 0 < s.radius := lt_of_le_of_lt (Real.sqrt_nonneg _) hin
  have hc : hitC s ray < 0 := by
    simp only [Vec3.length] at hin
    rw [Real.sqrt_lt' hr] at hin
    simp only [hitC]
    nlinarith
  have hlt : hitB s ray ^ 2 < hitDisc s ray := by
    simp only [hitDisc]
    nlinarith [mul_pos ha (neg_pos.mpr hc)]
  have hD : 0 < hitDisc s ray := lt_of_le_of_lt (sq_nonneg _) hlt
  obtain ⟨hnear, hfar⟩ := roots_straddle s ray ha hlt
  have hneg : s.hit Real.sqrt ray < 0 := by
    rw [hit_of_disc_nonneg s ray hD.le]
    exact hnear
  refine ⟨hD, hneg, ⟨farRoot Real.sqrt s ray, hfar, ?_⟩, ?_⟩
  · exact (onSphere_iff s ray _ hr.le).mpr (farRoot_on s ray ha hD.le)
  · exact color_miss s ray (not_lt.mpr hneg.le)

/-- Witness for `hit_from_inside`: the unit sphere around the camera origin and
the ray from its center down the `-z` axis. -/
theorem hit_from_inside_witness :
    (axisRay : Ray ℝ).direction ≠ Vec3.zero ∧
    ((axisRay : Ray ℝ).origin.sub (unitSphere : Sphere ℝ).center).length Real.sqrt <
      (unitSphere : Sphere ℝ).radius ∧
    0 < hitDisc (unitSphere : Sphere ℝ) axisRay ∧
    (unitSphere : Sphere ℝ).hit Real.sqrt axisRay < 0 ∧
    (∃ t : ℝ, 0 < t ∧ onSphere Real.sqrt unitSphere axisRay t) ∧
    color Real.sqrt axisRay unitSphere = gradient (blend Real.sqrt (axisRay : Ray ℝ).direction) :=
  ⟨axisRay_direction_ne,
    by simp [axisRay, unitSphere, Vec3.sub, Vec3.length, Vec3.dot],
    hit_from_inside unitSphere axisRay axisRay_direction_ne
      (by simp [axisRay, unitSphere, Vec3.sub, Vec3.length, Vec3.dot])⟩

/-- For the sphere with center `(0,0,3)` and radius
`1`, origin `(0,0,0)`, direction `d = (0,0,-4)` and `k = 2`, `Sphere.hit`
returns `-1` on `Ray(o, d)` but `-1/2`, not `-1`, on `Ray(o, k*d)`. -/
theorem hit_scale_counterexample :
    (⟨0, 0, -4⟩ : Vec3 ℝ) ≠ Vec3.zero ∧ (0 : ℝ) < 2 ∧
    Sphere.hit Real.sqrt ⟨⟨0, 0, 3⟩, 1⟩ (⟨⟨0, 0, 0⟩, ⟨0, 0, -4⟩⟩ : Ray ℝ) = -1 ∧
    Sphere.hit Real.sqrt ⟨⟨0, 0, 3⟩, 1⟩
      (⟨⟨0, 0, 0⟩, (⟨0, 0, -4⟩ : Vec3 ℝ).mul 2⟩ : Ray ℝ) = -1 / 2 ∧
    Sphere.hit Real.sqrt ⟨⟨0, 0, 3⟩, 1⟩
      (⟨⟨0, 0, 0⟩, (⟨0, 0, -4⟩ : Vec3 ℝ).mul 2⟩ : Ray ℝ) ≠ -1 := by
  have h2 : Sphere.hit Real.sqrt ⟨⟨0, 0, 3⟩, 1⟩
      (⟨⟨0, 0, 0⟩, (⟨0, 0, -4⟩ : Vec3 ℝ).mul 2⟩ : Ray ℝ) = -1 / 2 := by
    simp only [Sphere.hit, Vec3.sub, Vec3.dot, Vec3.mul]
    norm_num
    rw [show (256 : ℝ) = 16 ^ 2 by norm_num, Real.sqrt_sq (by norm_num)]
    norm_num
  refine ⟨?_, by norm_num, ?_, h2, ?_⟩
  · intro h
    have := congrArg Vec3.z h
    simp [Vec3.zero] at this
  · simp only [Sphere.hit, Vec3.sub, Vec3.dot]
    norm_num
    rw [show (64 : ℝ) = 8 ^ 2 by norm_num, Real.sqrt_sq (by norm_num)]
    norm_num
  · rw [h2]; norm_num

/-- C14 (amended): in exact real arithmetic, for every sphere with non-zero
radius (so that no normalization divides by zero), origin `o`, non-zero
direction `d` and real `k > 0`,
`color(Ray(o, k*d), sphere) = color(Ray(o, d), sphere)`; `Sphere.hit`
takes its no-root branch (discriminant `< 0`, returning `-1`) on `Ray(o, k*d)`
exactly when it does on `Ray(o, d)`, and otherwise returns the value for
`Ray(o, d)` divided by `k`, so the hit point is the same. -/
theorem color_scale_invariant (s : Sphere ℝ) (o d : Vec3 ℝ) (k : ℝ)
    (hr : s.radius ≠ 0) (hd : d ≠ Vec3.zero) (hk : 0 < k) :
    color Real.sqrt ⟨o, d.mul k⟩ s = color Real.sqrt ⟨o, d⟩ s ∧
    (hitDisc s (⟨o, d.mul k⟩ : Ray ℝ) < 0 ↔ hitDisc s (⟨o, d⟩ : Ray ℝ) < 0) ∧
    (hitDisc s (⟨o, d⟩ : Ray ℝ) < 0 →
      s.hit Real.sqrt ⟨o, d.mul k⟩ = -1 ∧ s.hit Real.sqrt ⟨o, d⟩ = -1) ∧
    (0 ≤ hitDisc s (⟨o, d⟩ : Ray ℝ) →
      s.hit Real.sqrt ⟨o, d.mul k⟩ = s.hit Real.sqrt ⟨o, d⟩ / k ∧
      (⟨o, d.mul k⟩ : Ray ℝ).pointAtParameter (s.hit Real.sqrt ⟨o, d.mul k⟩) =
        (⟨o, d⟩ : Ray ℝ).pointAtParameter (s.hit Real.sqrt ⟨o, d⟩)) := by
  have ha : 0 < hitA (⟨o, d⟩ : Ray ℝ) := hitA_pos ⟨o, d⟩ hd
  have hiff := scaled_disc_neg_iff s o d k hk
  have hneg : hitDisc s (⟨o, d⟩ : Ray ℝ) < 0 →
      s.hit Real.sqrt ⟨o, d.mul k⟩ = -1 ∧ s.hit Real.sqrt ⟨o, d⟩ = -1 := fun h =>
    ⟨hit_of_disc_neg s _ (hiff.mpr h), hit_of_disc_neg s _ h⟩
  have hnonneg : 0 ≤ hitDisc s (⟨o, d⟩ : Ray ℝ) →
      s.hit Real.sqrt ⟨o, d.mul k⟩ = s.hit Real.sqrt ⟨o, d⟩ / k := by
    intro h
    have h' : 0 ≤ hitDisc s (⟨o, d.mul k⟩ : Ray ℝ) := by
      rw [scaled_hitDisc]; positivity
    rw [hit_of_disc_nonneg s _ h', hit_of_disc_nonneg s _ h, scaled_nearRoot s o d k hk ha]
  have hsign : s.hit Real.sqrt ⟨o, d.mul k⟩ > 0 ↔ s.hit Real.sqrt ⟨o, d⟩ > 0 := by
    by_cases h : hitDisc s (⟨o, d⟩ : Ray ℝ) < 0
    · rw [(hneg h).1, (hneg h).2]
    · rw [hnonneg (not_lt.mp h)]
      exact div_pos_iff_of_pos_right hk
  refine ⟨?_, hiff, hneg, fun h => ⟨hnonneg h, ?_⟩⟩
  · by_cases hpos : s.hit Real.sqrt ⟨o, d⟩ > 0
    · have hD := disc_nonneg_of_hit_pos s _ hpos
      rw [color_hit s _ hpos, color_hit s _ (hsign.mpr hpos), hnonneg hD,
        scaled_point o d k _ hk]
    · rw [color_miss s _ hpos, color_miss s _ (fun h => hpos (hsign.mp h))]
      exact congrArg gradient (scaled_blend d k hk)
  · rw [hnonneg h, scaled_point o d k _ hk]

/-- Witness for `color_scale_invariant`: the scene's sphere, the direction
`(0, 0, -1)` from the camera origin and `k = 2`. -/
theorem color_scale_invariant_witness :
    (onload.sphere : Sphere ℝ).radius ≠ 0 ∧
    (⟨0, 0, -1⟩ : Vec3 ℝ) ≠ Vec3.zero ∧ (0 : ℝ) < 2 ∧
    color Real.sqrt ⟨⟨0, 0, 0⟩, (⟨0, 0, -1⟩ : Vec3 ℝ).mul 2⟩ onload.sphere =
      color Real.sqrt ⟨⟨0, 0, 0⟩, ⟨0, 0, -1⟩⟩ onload.sphere ∧
    (hitDisc onload.sphere (⟨⟨0, 0, 0⟩, (⟨0, 0, -1⟩ : Vec3 ℝ).mul 2⟩ : Ray ℝ) < 0 ↔
      hitDisc onload.sphere (⟨⟨0, 0, 0⟩, ⟨0, 0, -1⟩⟩ : Ray ℝ) < 0) ∧
    (hitDisc onload.sphere (⟨⟨0, 0, 0⟩, ⟨0, 0, -1⟩⟩ : Ray ℝ) < 0 →
      (onload.sphere : Sphere ℝ).hit Real.sqrt ⟨⟨0, 0, 0⟩, (⟨0, 0, -1⟩ : Vec3 ℝ).mul 2⟩ = -1 ∧
      (onload.sphere : Sphere ℝ).hit Real.sqrt ⟨⟨0, 0, 0⟩, ⟨0, 0, -1⟩⟩ = -1) ∧
    (0 ≤ hitDisc onload.sphere (⟨⟨0, 0, 0⟩, ⟨0, 0, -1⟩⟩ : Ray ℝ) →
      (onload.sphere : Sphere ℝ).hit Real.sqrt ⟨⟨0, 0, 0⟩, (⟨0, 0, -1⟩ : Vec3 ℝ).mul 2⟩ =
        (onload.sphere : Sphere ℝ).hit Real.sqrt ⟨⟨0, 0, 0⟩, ⟨0, 0, -1⟩⟩ / 2 ∧
      (⟨⟨0, 0, 0⟩, (⟨0, 0, -1⟩ : Vec3 ℝ).mul 2⟩ : Ray ℝ).pointAtParameter
          ((onload.sphere : Sphere ℝ).hit Real.sqrt
            ⟨⟨0, 0, 0⟩, (⟨0, 0, -1⟩ : Vec3 ℝ).mul 2⟩) =
        (⟨⟨0, 0, 0⟩, ⟨0, 0, -1⟩⟩ : Ray ℝ).pointAtParameter
          ((onload.sphere : Sphere ℝ).hit Real.sqrt ⟨⟨0, 0, 0⟩, ⟨0, 0, -1⟩⟩)) :=
  ⟨sphere_radius_pos.ne', axisRay_direction_ne, by norm_num,
    color_scale_invariant onload.sphere ⟨0, 0, 0⟩ ⟨0, 0, -1⟩ 2 sphere_radius_pos.ne'
      axisRay_direction_ne (by norm_num)⟩

end RayClaims

/-! ## The program on doubles -/

section DoubleClaims

set_option maxRecDepth 1000000
set_option exponentiation.threshold 4096

/-- C1 (as stated, refuted), in three ways.  With radius `-0.5` no point is at
distance `radius` from the center, yet `hit` returns `0.5`, not `-1`.  On doubles
with radius `0.1` the axis ray gets `0.8999999999999999`, and the squared
distance of the point at that parameter to the center is not `radius * radius`.
And the line from `(0, 0.10000000000000002, 0)` down `-z` misses the sphere of
radius `0.1` (by one unit in the last place), yet `hit` returns `1`, not `-1`. -/
theorem hit_near_intersection_counterexample :
    ((¬ ∃ t : ℝ, onSphere Real.sqrt ⟨⟨0, 0, -1⟩, -0.5⟩ ⟨⟨0, 0, 0⟩, ⟨0, 0, -1⟩⟩ t) ∧
      Sphere.hit Double.sqrt ⟨⟨0, 0, -1⟩, -0.5⟩ (⟨⟨0, 0, 0⟩, ⟨0, 0, -1⟩⟩ : Ray Double) = 0.5) ∧
    (Sphere.hit Double.sqrt ⟨⟨0, 0, -1⟩, 0.1⟩ (⟨⟨0, 0, 0⟩, ⟨0, 0, -1⟩⟩ : Ray Double) =
        0.8999999999999999 ∧
      (((⟨⟨0, 0, 0⟩, ⟨0, 0, -1⟩⟩ : Ray Double).pointAtParameter 0.8999999999999999).sub
          ⟨0, 0, -1⟩).dot
        (((⟨⟨0, 0, 0⟩, ⟨0, 0, -1⟩⟩ : Ray Double).pointAtParameter 0.8999999999999999).sub
          ⟨0, 0, -1⟩) ≠ (0.1 : Double) * 0.1) ∧
    ((0.1 : Double) = Double.fin false 7205759403792794 (-56) ∧
      (0.10000000000000002 : Double) = Double.fin false 7205759403792795 (-56) ∧
      (¬ ∃ t : ℝ, onSphere Real.sqrt ⟨⟨0, 0, -1⟩, 7205759403792794 / 2 ^ 56⟩
        ⟨⟨0, 7205759403792795 / 2 ^ 56, 0⟩, ⟨0, 0, -1⟩⟩ t) ∧
      Sphere.hit Double.sqrt ⟨⟨0, 0, -1⟩, 0.1⟩
        (⟨⟨0, 0.10000000000000002, 0⟩, ⟨0, 0, -1⟩⟩ : Ray Double) = 1) :=
  ⟨⟨hit_negative_radius_counterexample.2.1, by decide⟩, ⟨by decide, by decide⟩,
    by decide, by decide, near_tangent_line_misses, by decide⟩

/-- C2 (as stated, refuted): on doubles, for the sphere with center `(0,0,-1)`
and radius `1e-9 > 0` and the ray from the origin with direction `(0,0,-1)`,
`Sphere.hit` returns `1`, the hit point is the center, its normalization is
`0 / 0`, and `color` returns `(NaN, NaN, NaN)`: no component is in `[0, 1]`. -/
theorem color_nan_counterexample :
    (0 : Double) < 1e-9 ∧
    (⟨0, 0, -1⟩ : Vec3 Double) ≠ ⟨0, 0, 0⟩ ∧
    Sphere.hit Double.sqrt ⟨⟨0, 0, -1⟩, 1e-9⟩ (⟨⟨0, 0, 0⟩, ⟨0, 0, -1⟩⟩ : Ray Double) = 1 ∧
    color Double.sqrt (⟨⟨0, 0, 0⟩, ⟨0, 0, -1⟩⟩ : Ray Double) ⟨⟨0, 0, -1⟩, 1e-9⟩ =
      ⟨Double.nan, Double.nan, Double.nan⟩ ∧
    ¬ ((0 : Double) ≤ Double.nan) ∧ ¬ (Double.nan ≤ (1 : Double)) := by
  decide

/-- C3 (as stated, refuted): on doubles, for the scene's sphere and the ray from
the origin with the non-zero direction `(0, 1e-200, 0)`, `dot` underflows to `0`,
`Sphere.hit` returns NaN (not a value `> 0`), the length of the direction is `0`,
the blend factor `0.5 * (d.y / |d| + 1)` is `+Infinity`, not in `[0, 1]`, and
`color` returns `(NaN, NaN, NaN)`. -/
theorem color_miss_nan_counterexample :
    (⟨0, 1e-200, 0⟩ : Vec3 Double) ≠ ⟨0, 0, 0⟩ ∧
    ¬ (Sphere.hit Double.sqrt onload.sphere (⟨⟨0, 0, 0⟩, ⟨0, 1e-200, 0⟩⟩ : Ray Double) > 0) ∧
    (⟨0, 1e-200, 0⟩ : Vec3 Double).length Double.sqrt = 0 ∧
    (0.5 : Double) * ((1e-200 : Double) / (⟨0, 1e-200, 0⟩ : Vec3 Double).length Double.sqrt + 1) =
      Double.inf false ∧
    ¬ (Double.inf false ≤ (1 : Double)) ∧
    color Double.sqrt (⟨⟨0, 0, 0⟩, ⟨0, 1e-200, 0⟩⟩ : Ray Double) onload.sphere =
      ⟨Double.nan, Double.nan, Double.nan⟩ := by
  decide

/-- C7 (as stated, refuted), in two ways.  For the sphere with center `(0,0,3)`
and radius `1` and the ray from the origin with direction `(0,0,-4)`, `hit`
returns `-1` although the line meets the sphere (at `t = -1`, the near root).
And on doubles the line from `(0, 0.10000000000000002, 0)` down `-z` misses the
sphere with center `(0,0,-1)` and radius `0.1`, yet `hit` returns `1`, not
`-1`. -/
theorem hit_sentinel_counterexample :
    (Sphere.hit Real.sqrt ⟨⟨0, 0, 3⟩, 1⟩ ⟨⟨0, 0, 0⟩, ⟨0, 0, -4⟩⟩ = -1 ∧
      Sphere.hit Double.sqrt ⟨⟨0, 0, 3⟩, 1⟩ (⟨⟨0, 0, 0⟩, ⟨0, 0, -4⟩⟩ : Ray Double) = -1 ∧
      ∃ t : ℝ, onSphere Real.sqrt ⟨⟨0, 0, 3⟩, 1⟩ ⟨⟨0, 0, 0⟩, ⟨0, 0, -4⟩⟩ t) ∧
    ((0.1 : Double) = Double.fin false 7205759403792794 (-56) ∧
      (0.10000000000000002 : Double) = Double.fin false 7205759403792795 (-56) ∧
      (¬ ∃ t : ℝ, onSphere Real.sqrt ⟨⟨0, 0, -1⟩, 7205759403792794 / 2 ^ 56⟩
        ⟨⟨0, 7205759403792795 / 2 ^ 56, 0⟩, ⟨0, 0, -1⟩⟩ t) ∧
      Sphere.hit Double.sqrt ⟨⟨0, 0, -1⟩, 0.1⟩
        (⟨⟨0, 0.10000000000000002, 0⟩, ⟨0, 0, -1⟩⟩ : Ray Double) = 1 ∧
      (1 : Double) ≠ -1) :=
  ⟨⟨hit_minus_one_counterexample.2.1, by decide, hit_minus_one_counterexample.2.2⟩,
    by decide, by decide, near_tangent_line_misses, by decide, by decide⟩

/-- C8 (as stated, refuted): on doubles, for the sphere with center `(0,0,-1)`
and radius `1`, the origin `(0,0,0)` on it and the non-zero direction
`(0, 1e-200, 0)`, which has `dot(origin - center, direction) = 0`, the
coefficient `a` underflows to `0` and `hit` returns `(-0 - 0) / 0 = NaN`, which is
not `≤ 0`; `color` returns `(NaN, NaN, NaN)`, not a gradient colour. -/
theorem hit_grazing_nan_counterexample :
    (⟨0, 1e-200, 0⟩ : Vec3 Double) ≠ ⟨0, 0, 0⟩ ∧
    (((⟨0, 0, 0⟩ : Vec3 Double).sub ⟨0, 0, -1⟩).length Double.sqrt = 1) ∧
    ((⟨0, 0, 0⟩ : Vec3 Double).sub ⟨0, 0, -1⟩).dot ⟨0, 1e-200, 0⟩ = 0 ∧
    Sphere.hit Double.sqrt ⟨⟨0, 0, -1⟩, 1⟩ (⟨⟨0, 0, 0⟩, ⟨0, 1e-200, 0⟩⟩ : Ray Double) =
      Double.nan ∧
    ¬ (Double.nan ≤ (0 : Double)) ∧
    color Double.sqrt (⟨⟨0, 0, 0⟩, ⟨0, 1e-200, 0⟩⟩ : Ray Double) ⟨⟨0, 0, -1⟩, 1⟩ =
      ⟨Double.nan, Double.nan, Double.nan⟩ := by
  decide

/-- C10 (as stated, refuted): on doubles `(1,0,1).normalize()` has length
`0.9999999999999999`, not `1`; and `(3,4,0).normalize()`, which is
`(0.6, 0.8, 0)`, is not `(3,4,0)` scaled by `1 / length`, which is
`(0.6000000000000001, 0.8, 0)`. -/
theorem normalize_rounding_counterexample :
    (⟨1, 0, 1⟩ : Vec3 Double) ≠ ⟨0, 0, 0⟩ ∧
    ((⟨1, 0, 1⟩ : Vec3 Double).normalize Double.sqrt).length Double.sqrt =
      0.9999999999999999 ∧
    ((⟨1, 0, 1⟩ : Vec3 Double).normalize Double.sqrt).length Double.sqrt ≠ 1 ∧
    (⟨3, 4, 0⟩ : Vec3 Double).normalize Double.sqrt = ⟨0.6, 0.8, 0⟩ ∧
    (⟨3, 4, 0⟩ : Vec3 Double).mul (1 / (⟨3, 4, 0⟩ : Vec3 Double).length Double.sqrt) =
      ⟨0.6000000000000001, 0.8, 0⟩ ∧
    (⟨3, 4, 0⟩ : Vec3 Double).normalize Double.sqrt ≠
      (⟨3, 4, 0⟩ : Vec3 Double).mul (1 / (⟨3, 4, 0⟩ : Vec3 Double).length Double.sqrt) := by
  decide

/-- C14 (as stated, refuted), in two ways.  For the sphere with center `(0,0,3)`
and radius `1`, origin `(0,0,0)`, direction `d = (0,0,-4)` and `k = 2`,
`Sphere.hit` returns `-1` on `Ray(o, d)` but `-1/2`, not `-1`, on `Ray(o, k*d)`.
And on doubles, for the scene's sphere, `d = (0,0,-1)` and `k = 1e200`, the
coefficient `a` of `Ray(o, k*d)` overflows, `hit` is NaN, and the colour is the
background `(0.75, 0.85, 1)` where `Ray(o, d)` gets the hit colour
`(0.5, 0.5, 1)`. -/
theorem color_scale_counterexample :
    (Sphere.hit Real.sqrt ⟨⟨0, 0, 3⟩, 1⟩ (⟨⟨0, 0, 0⟩, ⟨0, 0, -4⟩⟩ : Ray ℝ) = -1 ∧
      Sphere.hit Real.sqrt ⟨⟨0, 0, 3⟩, 1⟩
        (⟨⟨0, 0, 0⟩, (⟨0, 0, -4⟩ : Vec3 ℝ).mul 2⟩ : Ray ℝ) ≠ -1) ∧
    ((⟨0, 0, -1⟩ : Vec3 Double) ≠ ⟨0, 0, 0⟩ ∧ (0 : Double) < 1e200 ∧
      Sphere.hit Double.sqrt onload.sphere
        (⟨⟨0, 0, 0⟩, (⟨0, 0, -1⟩ : Vec3 Double).mul 1e200⟩ : Ray Double) = Double.nan ∧
      color Double.sqrt (⟨⟨0, 0, 0⟩, (⟨0, 0, -1⟩ : Vec3 Double).mul 1e200⟩ : Ray Double)
        onload.sphere = ⟨0.75, 0.85, 1⟩ ∧
      color Double.sqrt (⟨⟨0, 0, 0⟩, ⟨0, 0, -1⟩⟩ : Ray Double) onload.sphere =
        ⟨0.5, 0.5, 1⟩ ∧
      color Double.sqrt (⟨⟨0, 0, 0⟩, (⟨0, 0, -1⟩ : Vec3 Double).mul 1e200⟩ : Ray Double)
        onload.sphere ≠
      color Double.sqrt (⟨⟨0, 0, 0⟩, ⟨0, 0, -1⟩⟩ : Ray Double) onload.sphere) :=
  ⟨⟨hit_scale_counterexample.2.2.1, hit_scale_counterexample.2.2.2.2⟩, by decide⟩

/-- C16 (as stated, refuted): on doubles, in the `200 × 100` frame the ray of
pixel `i = 100`, `j = 49` hits the sphere (`Sphere.hit > 0`) and the vector
`hitPoint - center` that is normalized has length `0.49999999999999994`, not
exactly `0.5`. -/
theorem render_divisors_counterexample :
    2 ≤ 200 ∧ 2 ≤ 100 ∧ 100 < 200 ∧ 49 < 100 ∧
    (onload.sphere : Sphere Double).hit Double.sqrt (onload.ray 200 100 49 100) > 0 ∧
    (((onload.ray 200 100 49 100 : Ray Double).pointAtParameter
      ((onload.sphere : Sphere Double).hit Double.sqrt (onload.ray 200 100 49 100))).sub
        (onload.sphere : Sphere Double).center).length Double.sqrt = 0.49999999999999994 ∧
    (0.49999999999999994 : Double) ≠ 0.5 := by
  decide

/-- C17 (as stated, refuted): on doubles, for the unit sphere around the origin,
the origin `(0,0,0)` strictly inside it and the non-zero direction
`(0, 0, -1e-200)`, the coefficient `a` underflows to `0`, the discriminant
`b * b - 4 * a * c` is `0`, not positive, `hit` returns NaN, which is not `< 0`,
and `color` returns `(NaN, NaN, NaN)`. -/
theorem hit_from_inside_nan_counterexample :
    (⟨0, 0, -1e-200⟩ : Vec3 Double) ≠ ⟨0, 0, 0⟩ ∧
    ((⟨0, 0, 0⟩ : Vec3 Double).sub ⟨0, 0, 0⟩).length Double.sqrt < 1 ∧
    (⟨0, 0, -1e-200⟩ : Vec3 Double).dot ⟨0, 0, -1e-200⟩ = 0 ∧
    Sphere.hit Double.sqrt ⟨⟨0, 0, 0⟩, 1⟩ (⟨⟨0, 0, 0⟩, ⟨0, 0, -1e-200⟩⟩ : Ray Double) =
      Double.nan ∧
    ¬ (Double.nan < (0 : Double)) ∧
    color Double.sqrt (⟨⟨0, 0, 0⟩, ⟨0, 0, -1e-200⟩⟩ : Ray Double) ⟨⟨0, 0, 0⟩, 1⟩ =
      ⟨Double.nan, Double.nan, Double.nan⟩ := by
  decide

end DoubleClaims

/-! ## Whole frames -/

section FrameClaims

set_option maxRecDepth 1000000 in
/-- C15 (as stated, refuted): invoked on a `1 × 1` frame (so `width < 2`) with a
blank buffer of `4` bytes, the render loop on doubles rejects nothing: it runs
and writes the bytes `0, 0, 0, 255`, so the buffer is not left unchanged. -/
theorem render_degenerate_counterexample :
    1 < 2 ∧
    blankBuffer 4 = #[0, 0, 0, 0] ∧
    onload.renderDouble 1 1 (blankBuffer 4) = #[0, 0, 0, 255] ∧
    onload.renderDouble 1 1 (blankBuffer 4) ≠ blankBuffer 4 := by
  decide

/-- C15 (amended): degenerate frame dimensions are not rejected.  When
`width = 1` or `height = 1` and the buffer has `width * height * 4` bytes, the
render loop on doubles runs over every pixel: the fraction `u` or `v` is
`0 / 0 = NaN`, so are the ray direction and the colour, and every pixel is
written as `(0, 0, 0, 255)`. -/
theorem render_degenerate_frame (width height : Nat) (hdeg : width = 1 ∨ height = 1)
    (pixels : Array Nat) (hsize : pixels.size = width * height * 4) (i r : Nat)
    (hi : i < width) (hr : r < height) :
    (onload.renderDouble width height pixels)[(r * width + i) * 4 + 0]? = some 0 ∧
    (onload.renderDouble width height pixels)[(r * width + i) * 4 + 1]? = some 0 ∧
    (onload.renderDouble width height pixels)[(r * width + i) * 4 + 2]? = some 0 ∧
    (onload.renderDouble width height pixels)[(r * width + i) * 4 + 3]? = some 255 := by
  have hj : height - 1 - r < height := by omega
  have hflip := pixelIndex_flip width height r i hr
  have hst := pixelStoresDouble_degenerate width height (height - 1 - r) i hi hj hdeg
  have key := renderDouble_getElem? width height pixels hsize (height - 1 - r) i hj hi
  rw [hst, hflip] at key
  have h255 : Double.toUint8Clamp 255 = 255 := by decide
  refine ⟨?_, ?_, ?_, ?_⟩
  · exact key ((r * width + i) * 4 + 0, Double.nan) (List.mem_cons_self _ _)
  · exact key ((r * width + i) * 4 + 1, Double.nan)
      (List.mem_cons_of_mem _ (List.mem_cons_self _ _))
  · exact key ((r * width + i) * 4 + 2, Double.nan)
      (List.mem_cons_of_mem _ (List.mem_cons_of_mem _ (List.mem_cons_self _ _)))
  · have := key ((r * width + i) * 4 + 3, 255) (by simp)
    rwa [h255] at this

/-- Witness for `render_degenerate_frame`: the second pixel of a `1 × 2` frame on
a blank buffer of `8` bytes. -/
theorem render_degenerate_frame_witness :
    ((1 : Nat) = 1 ∨ (2 : Nat) = 1) ∧ (blankBuffer 8).size = 1 * 2 * 4 ∧ 0 < 1 ∧ 1 < 2 ∧
    (onload.renderDouble 1 2 (blankBuffer 8))[(1 * 1 + 0) * 4 + 0]? = some 0 ∧
    (onload.renderDouble 1 2 (blankBuffer 8))[(1 * 1 + 0) * 4 + 1]? = some 0 ∧
    (onload.renderDouble 1 2 (blankBuffer 8))[(1 * 1 + 0) * 4 + 2]? = some 0 ∧
    (onload.renderDouble 1 2 (blankBuffer 8))[(1 * 1 + 0) * 4 + 3]? = some 255 :=
  ⟨Or.inl rfl, by simp [blankBuffer], by decide, by decide,
    render_degenerate_frame 1 2 (Or.inl rfl) (blankBuffer 8) (by simp [blankBuffer]) 0 1
      (by decide) (by decide)⟩

/-- C12: for `width = 200`, `height = 100`, a buffer of `200 * 100 * 4` bytes
and the fixed scene, the pixel at image column `100`, image row `50` (world row
`49`, ray direction `(2/199, -1/99, -1)`) is shaded by the hit branch
(`Sphere.hit > 0`): its bytes are `⌊255.99 * 0.5 * (n + 1)⌋` for the components
`n` of the unit normal at the hit point, and `255`; and each of the four corner
pixels (ray directions `(±2, ±1, -1)`) has a negative discriminant and the bytes
`⌊255.99 * channel⌋` of `white * (1 - s) + sky * s` with
`s = 0.5 * (d.y / |d| + 1)`, and `255`. -/
theorem render_200_100 (pixels : Array Nat) (hsize : pixels.size = 200 * 100 * 4) :
    ((onload.ray 200 100 49 100 : Ray ℝ).direction = ⟨2 / 199, -1 / 99, -1⟩ ∧
      (onload.sphere : Sphere ℝ).hit Real.sqrt (onload.ray 200 100 49 100) > 0 ∧
      (hitNormal Real.sqrt onload.sphere
        (onload.ray 200 100 49 100 : Ray ℝ)).length Real.sqrt = 1 ∧
      pixelBytes (onload.render Real.sqrt 200 100 pixels) ((50 * 200 + 100) * 4)
        (normalColor (hitNormal Real.sqrt onload.sphere
          (onload.ray 200 100 49 100 : Ray ℝ)))) ∧
    ((onload.ray 200 100 99 0 : Ray ℝ).direction = ⟨-2, 1, -1⟩ ∧
      hitDisc onload.sphere (onload.ray 200 100 99 0 : Ray ℝ) < 0 ∧
      pixelBytes (onload.render Real.sqrt 200 100 pixels) ((0 * 200 + 0) * 4)
        (gradient (blend Real.sqrt (⟨-2, 1, -1⟩ : Vec3 ℝ)))) ∧
    ((onload.ray 200 100 99 199 : Ray ℝ).direction = ⟨2, 1, -1⟩ ∧
      hitDisc onload.sphere (onload.ray 200 100 99 199 : Ray ℝ) < 0 ∧
      pixelBytes (onload.render Real.sqrt 200 100 pixels) ((0 * 200 + 199) * 4)
        (gradient (blend Real.sqrt (⟨2, 1, -1⟩ : Vec3 ℝ)))) ∧
    ((onload.ray 200 100 0 0 : Ray ℝ).direction = ⟨-2, -1, -1⟩ ∧
      hitDisc onload.sphere (onload.ray 200 100 0 0 : Ray ℝ) < 0 ∧
      pixelBytes (onload.render Real.sqrt 200 100 pixels) ((99 * 200 + 0) * 4)
        (gradient (blend Real.sqrt (⟨-2, -1, -1⟩ : Vec3 ℝ)))) ∧
    ((onload.ray 200 100 0 199 : Ray ℝ).direction = ⟨2, -1, -1⟩ ∧
      hitDisc onload.sphere (onload.ray 200 100 0 199 : Ray ℝ) < 0 ∧
      pixelBytes (onload.render Real.sqrt 200 100 pixels) ((99 * 200 + 199) * 4)
        (gradient (blend Real.sqrt (⟨2, -1, -1⟩ : Vec3 ℝ)))) := by
  have dc : (onload.ray 200 100 49 100 : Ray ℝ).direction = ⟨2 / 199, -1 / 99, -1⟩ := by
    rw [ray_direction]; ext <;> norm_num
  have d1 : (onload.ray 200 100 99 0 : Ray ℝ).direction = ⟨-2, 1, -1⟩ := by
    rw [ray_direction]; ext <;> norm_num
  have d2 : (onload.ray 200 100 99 199 : Ray ℝ).direction = ⟨2, 1, -1⟩ := by
    rw [ray_direction]; ext <;> norm_num
  have d3 : (onload.ray 200 100 0 0 : Ray ℝ).direction = ⟨-2, -1, -1⟩ := by
    rw [ray_direction]; ext <;> norm_num
  have d4 : (onload.ray 200 100 0 199 : Ray ℝ).direction = ⟨2, -1, -1⟩ := by
    rw [ray_direction]; ext <;> norm_num
  have hc : 0 ≤ hitDisc onload.sphere (onload.ray 200 100 49 100 : Ray ℝ) := by
    rw [scene_hitDisc]; simp only [hitA, dc, Vec3.dot]; norm_num
  have h1 : hitDisc onload.sphere (onload.ray 200 100 99 0 : Ray ℝ) < 0 := by
    rw [scene_hitDisc]; simp only [hitA, d1, Vec3.dot]; norm_num
  have h2 : hitDisc onload.sphere (onload.ray 200 100 99 199 : Ray ℝ) < 0 := by
    rw [scene_hitDisc]; simp only [hitA, d2, Vec3.dot]; norm_num
  have h3 : hitDisc onload.sphere (onload.ray 200 100 0 0 : Ray ℝ) < 0 := by
    rw [scene_hitDisc]; simp only [hitA, d3, Vec3.dot]; norm_num
  have h4 : hitDisc onload.sphere (onload.ray 200 100 0 199 : Ray ℝ) < 0 := by
    rw [scene_hitDisc]; simp only [hitA, d4, Vec3.dot]; norm_num
  have hpos := scene_hit_pos 200 100 49 100 hc
  have bc := render_hit 200 100 pixels hsize 100 50 (by decide) (by decide) hpos
  have b1 := render_background 200 100 pixels hsize 0 0 (by decide) (by decide) h1
  have b2 := render_background 200 100 pixels hsize 199 0 (by decide) (by decide) h2
  have b3 := render_background 200 100 pixels hsize 0 99 (by decide) (by decide) h3
  have b4 := render_background 200 100 pixels hsize 199 99 (by decide) (by decide) h4
  rw [show (100 - 1 - 0 : ℕ) = 99 from rfl, d1] at b1
  rw [show (100 - 1 - 0 : ℕ) = 99 from rfl, d2] at b2
  rw [show (100 - 1 - 99 : ℕ) = 0 from rfl, d3] at b3
  rw [show (100 - 1 - 99 : ℕ) = 0 from rfl, d4] at b4
  exact ⟨⟨dc, hpos, bc.2, bc.1⟩, ⟨d1, h1, b1⟩, ⟨d2, h2, b2⟩, ⟨d3, h3, b3⟩, ⟨d4, h4, b4⟩⟩

/-- Witness for `render_200_100`: the render of a blank `200 × 100` canvas. -/
theorem render_200_100_witness :
    (blankBuffer 80000).size = 200 * 100 * 4 ∧
    (onload.sphere : Sphere ℝ).hit Real.sqrt (onload.ray 200 100 49 100) > 0 ∧
    pixelBytes (onload.render Real.sqrt 200 100 (blankBuffer 80000)) ((50 * 200 + 100) * 4)
      (normalColor (hitNormal Real.sqrt onload.sphere
        (onload.ray 200 100 49 100 : Ray ℝ))) ∧
    pixelBytes (onload.render Real.sqrt 200 100 (blankBuffer 80000)) ((0 * 200 + 0) * 4)
      (gradient (blend Real.sqrt (⟨-2, 1, -1⟩ : Vec3 ℝ))) :=
  ⟨by simp [blankBuffer],
    (render_200_100 (blankBuffer 80000) (by simp [blankBuffer])).1.2.1,
    (render_200_100 (blankBuffer 80000) (by simp [blankBuffer])).1.2.2.2,
    (render_200_100 (blankBuffer 80000) (by simp [blankBuffer])).2.1.2.2⟩

end FrameClaims

end Raytracer
